import Mathlib

/-!
Verification development for the map-description reconciliation and data-source
template matching engine of `arcpyext` (`src/arcpyext/mapping/_mapping.py`).

Python values flowing through the engine are JSON-like nested structures:
`None`, booleans, integers, strings, lists and (insertion-ordered) dicts.
They are embedded as the inductive type `Val`; a dict is a list of key/value
pairs, with keys unique by construction on the Python side.
-/

namespace ArcpyExt

inductive Val : Type where
  | vNone : Val
  | vBool : Bool → Val
  | vInt : Int → Val
  | vStr : String → Val
  | vList : List Val → Val
  | vDict : List (String × Val) → Val

open Val

/-- A Python dict (a structured description): an ordered list of key/value pairs. -/
abbrev Desc := List (String × Val)

/-- Python `d[k]` / `k in d` support: first value stored under `k`, if any.
Dicts built by the Python code have unique keys. -/
def dget : Desc → String → Option Val
  | [], _ => none
  | (k', v) :: t, k => if k' = k then some v else dget t k

/-- Python `d[k] = v`: replace the value at `k` in place (dicts keep a key's
original position on assignment), appending the pair when the key is new. -/
def dset : Desc → String → Val → Desc
  | [], k, v => [(k, v)]
  | (k', v') :: t, k, v => if k' = k then (k, v) :: t else (k', v') :: dset t k v

/-- Three-way comparison on a linearly ordered type. -/
def c3 {α : Type} [LinearOrder α] (x y : α) : Ordering :=
  if x < y then .lt else if x = y then .eq else .gt

/-- Python string comparison, code point by code point (`String.ltb` itself
recurses on byte positions, which the kernel cannot evaluate; comparing the
character lists computes identically). -/
def cmpChars : List Char → List Char → Ordering
  | [], [] => .eq
  | [], _ :: _ => .lt
  | _ :: _, [] => .gt
  | c :: cs, d :: ds => match c3 c d with | .eq => cmpChars cs ds | o => o

/-- Three-way string comparison. -/
def scmp (s t : String) : Ordering := cmpChars s.data t.data

/-- Python `str.lower()` (`String.toLower` recurses on byte positions; mapping
over the character list computes identically). -/
def strLower (s : String) : String := ⟨s.data.map Char.toLower⟩

/-- Tag used to order values of different constructors.  CPython raises
`TypeError` on cross-type `<`; the structures compared by this code are
homogeneous, so the cross-tag branch is a total extension never exercised
by the source's comparisons. -/
def vtag : Val → Nat
  | vNone => 0
  | vBool _ => 1
  | vInt _ => 2
  | vStr _ => 3
  | vList _ => 4
  | vDict _ => 5

mutual

/-- The comparison underlying Python's `sorted` and `==` in `_recursive_sort`:
values of the same kind compare by value, lists and dict-item lists compare
lexicographically (as Python compares lists and tuples). -/
def vcmp : Val → Val → Ordering
  | vNone, vNone => .eq
  | vBool x, vBool y => c3 x y
  | vInt x, vInt y => c3 x y
  | vStr x, vStr y => scmp x y
  | vList x, vList y => cmpVals x y
  | vDict x, vDict y => cmpPairs x y
  | a, b => c3 (vtag a) (vtag b)

/-- Lexicographic comparison of lists of values. -/
def cmpVals : List Val → List Val → Ordering
  | [], [] => .eq
  | [], _ :: _ => .lt
  | _ :: _, [] => .gt
  | a :: as, b :: bs => match vcmp a b with | .eq => cmpVals as bs | o => o

/-- Lexicographic comparison of dict-item lists; a `(key, value)` pair compares
as a Python tuple: by key first, then by value. -/
def cmpPairs : List (String × Val) → List (String × Val) → Ordering
  | [], [] => .eq
  | [], _ :: _ => .lt
  | _ :: _, [] => .gt
  | (k, a) :: t, (l, b) :: u =>
    match scmp k l with
    | .eq => (match vcmp a b with | .eq => cmpPairs t u | o => o)
    | o => o

end

theorem c3_eq_iff {α : Type} [LinearOrder α] {x y : α} : c3 x y = .eq ↔ x = y := by
  unfold c3
  split_ifs with h1 h2
  · exact iff_of_false (by decide) (ne_of_lt h1)
  · exact iff_of_true rfl h2
  · exact iff_of_false (by decide) h2

theorem c3_lt_iff {α : Type} [LinearOrder α] {x y : α} : c3 x y = .lt ↔ x < y := by
  unfold c3
  split_ifs with h1 h2
  · exact iff_of_true rfl h1
  · exact iff_of_false (by decide) (by rw [h2]; exact lt_irrefl y)
  · exact iff_of_false (by decide) h1

theorem c3_gt_iff {α : Type} [LinearOrder α] {x y : α} : c3 x y = .gt ↔ y < x := by
  unfold c3
  split_ifs with h1 h2
  · exact iff_of_false (by decide) (asymm h1)
  · exact iff_of_false (by decide) (by rw [h2]; exact lt_irrefl y)
  · exact iff_of_true rfl (lt_of_le_of_ne (not_lt.mp h1) (Ne.symm h2))

theorem c3_swap {α : Type} [LinearOrder α] (x y : α) : (c3 x y).swap = c3 y x := by
  rcases lt_trichotomy x y with h | h | h
  · rw [c3_lt_iff.mpr h, c3_gt_iff.mpr h]; rfl
  · subst h; rw [c3_eq_iff.mpr rfl]; rfl
  · rw [c3_gt_iff.mpr h, c3_lt_iff.mpr h]; rfl

theorem cmpChars_eq_iff : (xs ys : List Char) → (cmpChars xs ys = .eq ↔ xs = ys)
  | [], [] => by simp [cmpChars]
  | [], _ :: _ => by simp [cmpChars]
  | _ :: _, [] => by simp [cmpChars]
  | c :: cs, d :: ds => by
    simp only [cmpChars]
    cases h : c3 c d with
    | eq =>
      have hcd := c3_eq_iff.mp h
      subst hcd
      simpa using cmpChars_eq_iff cs ds
    | lt =>
      simp only [List.cons.injEq]
      exact iff_of_false (by simp) fun hc => by
        rw [hc.1, c3_eq_iff.mpr rfl] at h; cases h
    | gt =>
      simp only [List.cons.injEq]
      exact iff_of_false (by simp) fun hc => by
        rw [hc.1, c3_eq_iff.mpr rfl] at h; cases h

theorem cmpChars_swap : (xs ys : List Char) → (cmpChars xs ys).swap = cmpChars ys xs
  | [], [] => rfl
  | [], _ :: _ => rfl
  | _ :: _, [] => rfl
  | c :: cs, d :: ds => by
    simp only [cmpChars]
    cases h : c3 c d with
    | eq =>
      have h' : c3 d c = .eq := by rw [← c3_swap c d, h]; rfl
      simp only [h']
      exact cmpChars_swap cs ds
    | lt =>
      have h' : c3 d c = .gt := by rw [← c3_swap c d, h]; rfl
      simp [h, h', Ordering.swap]
    | gt =>
      have h' : c3 d c = .lt := by rw [← c3_swap c d, h]; rfl
      simp [h, h', Ordering.swap]

theorem cmpChars_lt_trans :
    (xs ys zs : List Char) → cmpChars xs ys = .lt → cmpChars ys zs = .lt → cmpChars xs zs = .lt
  | [], ys, zs => by cases ys <;> cases zs <;> simp [cmpChars]
  | _ :: _, [], zs => by cases zs <;> simp [cmpChars]
  | _ :: _, _ :: _, [] => by simp [cmpChars]
  | c :: cs, d :: ds, e :: es => by
    simp only [cmpChars]
    cases h1 : c3 c d with
    | eq =>
      have hcd := c3_eq_iff.mp h1
      subst hcd
      intro hl1 hl2
      have hl1' : cmpChars cs ds = .lt := hl1
      cases h2 : c3 c e with
      | eq =>
        rw [h2] at hl2
        exact cmpChars_lt_trans cs ds es hl1' hl2
      | lt => rfl
      | gt => rw [h2] at hl2; simp at hl2
    | lt =>
      intro _ hl2
      cases h2 : c3 d e with
      | eq =>
        have hde := c3_eq_iff.mp h2
        subst hde
        rw [h1]
      | lt => rw [c3_lt_iff.mpr (lt_trans (c3_lt_iff.mp h1) (c3_lt_iff.mp h2))]
      | gt => rw [h2] at hl2; simp at hl2
    | gt => intro hl1; simp at hl1

theorem scmp_eq_iff {s t : String} : scmp s t = .eq ↔ s = t := by
  obtain ⟨l⟩ := s
  obtain ⟨m⟩ := t
  unfold scmp
  rw [cmpChars_eq_iff]
  exact ⟨fun h => congrArg String.mk h, fun h => by cases h; rfl⟩

theorem scmp_swap (s t : String) : (scmp s t).swap = scmp t s := cmpChars_swap s.data t.data

theorem scmp_lt_trans {s t u : String} (h1 : scmp s t = .lt) (h2 : scmp t u = .lt) :
    scmp s u = .lt := cmpChars_lt_trans s.data t.data u.data h1 h2

mutual

theorem vcmp_eq_iff : (a b : Val) → (vcmp a b = .eq ↔ a = b)
  | vNone, b => by cases b <;> simp [vcmp, vtag, c3_eq_iff, scmp_eq_iff]
  | vBool x, b => by cases b <;> simp [vcmp, vtag, c3_eq_iff, scmp_eq_iff]
  | vInt x, b => by cases b <;> simp [vcmp, vtag, c3_eq_iff, scmp_eq_iff]
  | vStr x, b => by cases b <;> simp [vcmp, vtag, c3_eq_iff, scmp_eq_iff]
  | vList x, b => by
    cases b <;> simp [vcmp, vtag, c3_eq_iff, scmp_eq_iff]
    exact cmpVals_eq_iff x _
  | vDict x, b => by
    cases b <;> simp [vcmp, vtag, c3_eq_iff, scmp_eq_iff]
    exact cmpPairs_eq_iff x _

theorem cmpVals_eq_iff : (xs ys : List Val) → (cmpVals xs ys = .eq ↔ xs = ys)
  | [], [] => by simp [cmpVals]
  | [], _ :: _ => by simp [cmpVals]
  | _ :: _, [] => by simp [cmpVals]
  | a :: as, b :: bs => by
    simp only [cmpVals]
    cases h : vcmp a b with
    | eq =>
      have hab : a = b := (vcmp_eq_iff a b).mp h
      subst hab
      simpa using cmpVals_eq_iff as bs
    | lt =>
      simp only [List.cons.injEq]
      constructor
      · intro hc; cases hc
      · rintro ⟨rfl, rfl⟩
        rw [(vcmp_eq_iff a a).mpr rfl] at h; cases h
    | gt =>
      simp only [List.cons.injEq]
      constructor
      · intro hc; cases hc
      · rintro ⟨rfl, rfl⟩
        rw [(vcmp_eq_iff a a).mpr rfl] at h; cases h

theorem cmpPairs_eq_iff : (ps qs : List (String × Val)) → (cmpPairs ps qs = .eq ↔ ps = qs)
  | [], [] => by simp [cmpPairs]
  | [], _ :: _ => by simp [cmpPairs]
  | _ :: _, [] => by simp [cmpPairs]
  | (k, a) :: t, (l, b) :: u => by
    simp only [cmpPairs]
    cases hk : scmp k l with
    | eq =>
      have hkl : k = l := scmp_eq_iff.mp hk
      subst hkl
      cases h : vcmp a b with
      | eq =>
        have hab : a = b := (vcmp_eq_iff a b).mp h
        subst hab
        simpa using cmpPairs_eq_iff t u
      | lt =>
        simp only [List.cons.injEq, Prod.mk.injEq, eq_self_iff_true, true_and]
        constructor
        · intro hc; cases hc
        · rintro ⟨rfl, rfl⟩
          rw [(vcmp_eq_iff a a).mpr rfl] at h; cases h
      | gt =>
        simp only [List.cons.injEq, Prod.mk.injEq, eq_self_iff_true, true_and]
        constructor
        · intro hc; cases hc
        · rintro ⟨rfl, rfl⟩
          rw [(vcmp_eq_iff a a).mpr rfl] at h; cases h
    | lt =>
      simp only [List.cons.injEq, Prod.mk.injEq]
      constructor
      · intro hc; cases hc
      · rintro ⟨⟨rfl, rfl⟩, rfl⟩
        rw [scmp_eq_iff.mpr rfl] at hk; cases hk
    | gt =>
      simp only [List.cons.injEq, Prod.mk.injEq]
      constructor
      · intro hc; cases hc
      · rintro ⟨⟨rfl, rfl⟩, rfl⟩
        rw [scmp_eq_iff.mpr rfl] at hk; cases hk

end

instance : DecidableEq Val := fun a b => decidable_of_iff _ (vcmp_eq_iff a b)

mutual

theorem vcmp_swap : (a b : Val) → (vcmp a b).swap = vcmp b a
  | vNone, b => by cases b <;> rfl
  | vBool x, b => by cases b <;> first | rfl | exact c3_swap x _
  | vInt x, b => by cases b <;> first | rfl | exact c3_swap x _
  | vStr x, b => by cases b <;> first | rfl | exact scmp_swap x _
  | vList x, b => by cases b <;> first | rfl | exact cmpVals_swap x _
  | vDict x, b => by cases b <;> first | rfl | exact cmpPairs_swap x _

theorem cmpVals_swap : (xs ys : List Val) → (cmpVals xs ys).swap = cmpVals ys xs
  | [], [] => rfl
  | [], _ :: _ => rfl
  | _ :: _, [] => rfl
  | a :: as, b :: bs => by
    simp only [cmpVals]
    cases h : vcmp a b with
    | eq =>
      have h' : vcmp b a = .eq := by rw [← vcmp_swap a b, h]; rfl
      simp only [h']
      exact cmpVals_swap as bs
    | lt =>
      have h' : vcmp b a = .gt := by rw [← vcmp_swap a b, h]; rfl
      simp [h, h', Ordering.swap]
    | gt =>
      have h' : vcmp b a = .lt := by rw [← vcmp_swap a b, h]; rfl
      simp [h, h', Ordering.swap]

theorem cmpPairs_swap : (ps qs : List (String × Val)) → (cmpPairs ps qs).swap = cmpPairs qs ps
  | [], [] => rfl
  | [], _ :: _ => rfl
  | _ :: _, [] => rfl
  | (k, a) :: t, (l, b) :: u => by
    simp only [cmpPairs]
    cases hk : scmp k l with
    | eq =>
      have hkl : k = l := scmp_eq_iff.mp hk
      subst hkl
      rw [show scmp k k = Ordering.eq from scmp_eq_iff.mpr rfl]
      cases h : vcmp a b with
      | eq =>
        have h' : vcmp b a = .eq := by rw [← vcmp_swap a b, h]; rfl
        simp only [h']
        exact cmpPairs_swap t u
      | lt =>
        have h' : vcmp b a = .gt := by rw [← vcmp_swap a b, h]; rfl
        simp [h, h', Ordering.swap]
      | gt =>
        have h' : vcmp b a = .lt := by rw [← vcmp_swap a b, h]; rfl
        simp [h, h', Ordering.swap]
    | lt =>
      have hk' : scmp l k = .gt := by rw [← scmp_swap k l, hk]; rfl
      simp [hk, hk', Ordering.swap]
    | gt =>
      have hk' : scmp l k = .lt := by rw [← scmp_swap k l, hk]; rfl
      simp [hk, hk', Ordering.swap]

end

mutual

theorem vcmp_lt_trans : (a b c : Val) → vcmp a b = .lt → vcmp b c = .lt → vcmp a c = .lt
  | a, b, c => by
    cases a <;> cases b <;> cases c <;>
      simp only [vcmp, vtag, c3_lt_iff] <;>
      first
        | decide
        | (intro h1 h2
           first
             | assumption
             | exact lt_trans h1 h2
             | exact scmp_lt_trans h1 h2
             | omega
             | exact absurd h1 (by decide)
             | exact absurd h2 (by decide)
             | exact cmpVals_lt_trans _ _ _ h1 h2
             | exact cmpPairs_lt_trans _ _ _ h1 h2)

theorem cmpVals_lt_trans :
    (xs ys zs : List Val) → cmpVals xs ys = .lt → cmpVals ys zs = .lt → cmpVals xs zs = .lt
  | [], ys, zs => by cases ys <;> cases zs <;> simp [cmpVals]
  | _ :: _, [], zs => by cases zs <;> simp [cmpVals]
  | _ :: _, _ :: _, [] => by simp [cmpVals]
  | a :: as, b :: bs, c :: cs => by
    simp only [cmpVals]
    cases h1 : vcmp a b with
    | eq =>
      have hab := (vcmp_eq_iff a b).mp h1
      subst hab
      intro hl1 hl2
      have hl1' : cmpVals as bs = .lt := hl1
      cases h2 : vcmp a c with
      | eq =>
        rw [h2] at hl2
        exact cmpVals_lt_trans as bs cs hl1' hl2
      | lt => rfl
      | gt => rw [h2] at hl2; simp at hl2
    | lt =>
      intro _ hl2
      cases h2 : vcmp b c with
      | eq =>
        have hbc := (vcmp_eq_iff b c).mp h2
        subst hbc
        rw [h1]
      | lt => rw [vcmp_lt_trans a b c h1 h2]
      | gt => rw [h2] at hl2; simp at hl2
    | gt => intro hl1; simp at hl1

theorem cmpPairs_lt_trans :
    (ps qs rs : List (String × Val)) →
      cmpPairs ps qs = .lt → cmpPairs qs rs = .lt → cmpPairs ps rs = .lt
  | [], qs, rs => by cases qs <;> cases rs <;> simp [cmpPairs]
  | _ :: _, [], rs => by cases rs <;> simp [cmpPairs]
  | _ :: _, _ :: _, [] => by simp [cmpPairs]
  | (k, a) :: t, (l, b) :: u, (m, c) :: w => by
    simp only [cmpPairs]
    cases hk1 : scmp k l with
    | eq =>
      have hkl : k = l := scmp_eq_iff.mp hk1
      subst hkl
      cases hv1 : vcmp a b with
      | eq =>
        have hab := (vcmp_eq_iff a b).mp hv1
        subst hab
        intro hl1 hl2
        have hl1' : cmpPairs t u = .lt := hl1
        cases hk2 : scmp k m with
        | eq =>
          rw [hk2] at hl2
          cases hv2 : vcmp a c with
          | eq =>
            rw [hv2] at hl2
            exact cmpPairs_lt_trans t u w hl1' hl2
          | lt => rfl
          | gt => rw [hv2] at hl2; simp at hl2
        | lt => rfl
        | gt => rw [hk2] at hl2; simp at hl2
      | lt =>
        intro _ hl2
        cases hk2 : scmp k m with
        | eq =>
          have hkm := scmp_eq_iff.mp hk2
          subst hkm
          rw [hk2] at hl2
          cases hv2 : vcmp b c with
          | eq =>
            have hbc := (vcmp_eq_iff b c).mp hv2
            subst hbc
            rw [hv1]
          | lt => rw [vcmp_lt_trans a b c hv1 hv2]
          | gt => rw [hv2] at hl2; simp at hl2
        | lt => rfl
        | gt => rw [hk2] at hl2; simp at hl2
      | gt => intro hl1; simp at hl1
    | lt =>
      intro _ hl2
      cases hk2 : scmp l m with
      | eq =>
        have hlm := scmp_eq_iff.mp hk2
        subst hlm
        rw [hk1]
      | lt => rw [scmp_lt_trans hk1 hk2]
      | gt => rw [hk2] at hl2; simp at hl2
    | gt => intro hl1; simp at hl1

end

theorem vcmp_refl (a : Val) : vcmp a a = .eq := (vcmp_eq_iff a a).mpr rfl

/-- The `≤` relation Python's `sorted` produces orderings for. -/
def vleP (a b : Val) : Prop := vcmp a b ≠ Ordering.gt

instance : DecidableRel vleP := fun _ _ => instDecidableNot

theorem vcmp_le_trans {a b c : Val} (h1 : vleP a b) (h2 : vleP b c) : vleP a c := by
  unfold vleP at *
  cases ha : vcmp a b with
  | gt => exact absurd ha h1
  | eq => have hab := (vcmp_eq_iff a b).mp ha; subst hab; exact h2
  | lt =>
    cases hb : vcmp b c with
    | gt => exact absurd hb h2
    | eq => have hbc := (vcmp_eq_iff b c).mp hb; subst hbc; rw [ha]; simp
    | lt => rw [vcmp_lt_trans a b c ha hb]; simp

instance : IsTrans Val vleP := ⟨fun _ _ _ => vcmp_le_trans⟩

instance : IsTotal Val vleP := by
  refine ⟨fun a b => ?_⟩
  unfold vleP
  cases h : vcmp a b with
  | lt => left; simp
  | eq => left; simp
  | gt =>
    right
    rw [← vcmp_swap a b, h]
    simp [Ordering.swap]

instance : IsAntisymm Val vleP := by
  refine ⟨fun a b h1 h2 => ?_⟩
  unfold vleP at *
  cases h : vcmp a b with
  | gt => exact absurd h h1
  | eq => exact (vcmp_eq_iff a b).mp h
  | lt =>
    exfalso
    apply h2
    rw [← vcmp_swap a b, h]
    rfl

/-- Comparison of a dict item as a Python `(key, value)` tuple. -/
def pcmp (p q : String × Val) : Ordering :=
  match scmp p.1 q.1 with
  | .eq => vcmp p.2 q.2
  | o => o

/-- The tuple `≤` relation used when sorting dict items. -/
def pleP (p q : String × Val) : Prop := pcmp p q ≠ Ordering.gt

instance : DecidableRel pleP := fun _ _ => instDecidableNot

theorem pcmp_eq_iff {p q : String × Val} : pcmp p q = .eq ↔ p = q := by
  obtain ⟨k, a⟩ := p
  obtain ⟨l, b⟩ := q
  unfold pcmp
  cases hk : scmp k l with
  | eq =>
    have := scmp_eq_iff.mp hk
    subst this
    simp [vcmp_eq_iff]
  | lt =>
    simp only [Prod.mk.injEq]
    exact iff_of_false (by simp) (fun hc => by rw [hc.1, scmp_eq_iff.mpr rfl] at hk; cases hk)
  | gt =>
    simp only [Prod.mk.injEq]
    exact iff_of_false (by simp) (fun hc => by rw [hc.1, scmp_eq_iff.mpr rfl] at hk; cases hk)


theorem pcmp_swap (p q : String × Val) : (pcmp p q).swap = pcmp q p := by
  obtain ⟨k, a⟩ := p
  obtain ⟨l, b⟩ := q
  unfold pcmp
  cases hk : scmp k l with
  | eq =>
    have := scmp_eq_iff.mp hk
    subst this
    rw [show scmp k k = Ordering.eq from scmp_eq_iff.mpr rfl]
    exact vcmp_swap a b
  | lt =>
    have hk' : scmp l k = .gt := by rw [← scmp_swap k l, hk]; rfl
    simp [hk, hk', Ordering.swap]
  | gt =>
    have hk' : scmp l k = .lt := by rw [← scmp_swap k l, hk]; rfl
    simp [hk, hk', Ordering.swap]

theorem pcmp_lt_trans {p q r : String × Val} (h1 : pcmp p q = .lt) (h2 : pcmp q r = .lt) :
    pcmp p r = .lt := by
  obtain ⟨k, a⟩ := p
  obtain ⟨l, b⟩ := q
  obtain ⟨m, c⟩ := r
  unfold pcmp at *
  revert h1 h2
  cases hk1 : scmp k l <;> cases hk2 : scmp l m <;> intro h1 h2
  · rw [scmp_lt_trans hk1 hk2]
  · have hlm := scmp_eq_iff.mp hk2
    subst hlm
    rw [hk1]
  · simp at h2
  · have hkl := scmp_eq_iff.mp hk1
    subst hkl
    rw [hk2]
  · have hkl := scmp_eq_iff.mp hk1
    subst hkl
    have hlm := scmp_eq_iff.mp hk2
    subst hlm
    have h1' : vcmp a b = .lt := h1
    have h2' : vcmp b c = .lt := h2
    rw [show scmp k k = Ordering.eq from scmp_eq_iff.mpr rfl]
    exact vcmp_lt_trans a b c h1' h2'
  · simp at h2
  · simp at h1
  · simp at h1
  · simp at h1

instance : IsTrans (String × Val) pleP := by
  refine ⟨fun p q r h1 h2 => ?_⟩
  unfold pleP at *
  cases hp : pcmp p q with
  | gt => exact absurd hp h1
  | eq => rw [pcmp_eq_iff.mp hp] at *; exact h2
  | lt =>
    cases hq : pcmp q r with
    | gt => exact absurd hq h2
    | eq => rw [← pcmp_eq_iff.mp hq]; rw [hp]; simp
    | lt => rw [pcmp_lt_trans hp hq]; simp

instance : IsTotal (String × Val) pleP := by
  refine ⟨fun p q => ?_⟩
  unfold pleP
  cases h : pcmp p q with
  | lt => left; simp
  | eq => left; simp
  | gt =>
    right
    rw [← pcmp_swap p q, h]
    simp [Ordering.swap]

instance : IsAntisymm (String × Val) pleP := by
  refine ⟨fun p q h1 h2 => ?_⟩
  unfold pleP at *
  cases h : pcmp p q with
  | gt => exact absurd h h1
  | eq => exact pcmp_eq_iff.mp h
  | lt =>
    exfalso
    apply h2
    rw [← pcmp_swap p q, h]
    rfl

mutual

/-- `_recursive_sort` (src/arcpyext/mapping/_mapping.py:416-426): recursively
sort lists and dict items for consistent comparison.  A dict becomes its
sorted item list, a list is sorted element-wise after recursion. -/
def recursive_sort : Val → Val
  | vDict ps => vDict (List.insertionSort pleP (rsPairs ps))
  | vList l => vList (List.insertionSort vleP (rsList l))
  | v => v

/-- `_recursive_sort` mapped over dict values. -/
def rsPairs : List (String × Val) → List (String × Val)
  | [] => []
  | (k, v) :: t => (k, recursive_sort v) :: rsPairs t

/-- `_recursive_sort` mapped over list elements. -/
def rsList : List Val → List Val
  | [] => []
  | v :: t => recursive_sort v :: rsList t

end

mutual

/-- Modelled from the spec: `lowercase_dict` (from the missing module
`_compare_helpers`) lowers string case recursively — string keys and string
values of a mapping are lowercased, nested structures are lowered recursively,
non-string leaves are kept (spec section 4.1). -/
def lcVal : Val → Val
  | vStr s => vStr (strLower s)
  | vDict ps => vDict (lcPairs ps)
  | vList l => vList (lcList l)
  | v => v

/-- Case-lowering of dict items: keys and values. -/
def lcPairs : List (String × Val) → List (String × Val)
  | [] => []
  | (k, v) :: t => (strLower k, lcVal v) :: lcPairs t

/-- Case-lowering of list elements. -/
def lcList : List Val → List Val
  | [] => []
  | v :: t => lcVal v :: lcList t

end

/-- Modelled from the spec: `get_datasource_info` (missing module
`compare_types`) projects a layer description to its data source connection
mapping — the `dataSource` field, empty when absent. -/
def get_datasource_info (l : Desc) : Desc :=
  match dget l "dataSource" with
  | some (vDict d) => d
  | _ => []

/-- Modelled from the spec: `dictionaries_eq_ignore_case` (missing module
`_compare_helpers`) tests two mappings for equality that ignores string case
and key/element ordering. -/
def dictionaries_eq_ignore_case (a b : Desc) : Bool :=
  decide (recursive_sort (lcVal (vDict a)) = recursive_sort (lcVal (vDict b)))

/-- `_attr_shallow_eq` (src/arcpyext/mapping/_mapping.py:283-284):
`b[attr_key] == a[attr_key]` when the key is present on both sides, else `False`. -/
def attr_shallow_eq (a b : Desc) (k : String) : Bool :=
  match dget a k, dget b k with
  | some va, some vb => decide (vb = va)
  | _, _ => false

/-- `_attr_deep_eq` (src/arcpyext/mapping/_mapping.py:287-288):
`_recursive_sort(a[attr_key]) == _recursive_sort(b[attr_key])` when the key is
present on both sides, else `False`. -/
def attr_deep_eq (a b : Desc) (k : String) : Bool :=
  match dget a k, dget b k with
  | some va, some vb => decide (recursive_sort va = recursive_sort vb)
  | _, _ => false

/-! ## The layer reconciler (`_match_layers`, lines 291-381) -/

/-- `same_id` (line 306). -/
def same_id (a b : Desc) : Bool := attr_shallow_eq a b "serviceId"

/-- `same_name` (line 307). -/
def same_name (a b : Desc) : Bool := attr_shallow_eq a b "name"

/-- `same_datasource` (line 308). -/
def same_datasource (a b : Desc) : Bool :=
  dictionaries_eq_ignore_case (get_datasource_info a) (get_datasource_info b)

/-- A layer's `index` value (`layer['index']`).  The claims' layer lists always
carry the key; the `vNone` default stands in for Python's `KeyError`. -/
def lidx (l : Desc) : Val := (dget l "index").getD Val.vNone

/-- The `resolved_was` / `resolved_now` dicts: index value to matched layer or
`None`. -/
abbrev RMap := List (Val × Option Desc)

/-- Dict lookup in a resolved map (`x['index'] in resolved` / subscript). -/
def mlook : RMap → Val → Option (Option Desc)
  | [], _ => none
  | (k, v) :: t, j => if k = j then some v else mlook t j

/-- Dict assignment in a resolved map. -/
def mset : RMap → Val → Option Desc → RMap
  | [], j, v => [(j, v)]
  | (k, w) :: t, j, v => if k = j then (j, v) :: t else (k, w) :: mset t j v

/-- `is_resolved_was` (line 304). -/
def is_resolved_was (rw : RMap) (x : Desc) : Bool := (mlook rw (lidx x)).isSome

/-- `is_resolved_now` (line 305). -/
def is_resolved_now (rn : RMap) (x : Desc) : Bool := (mlook rn (lidx x)).isSome

/-- Test 1 (lines 311-315): same id, name and datasource — unchanged.  Note:
unlike tests 2-6 it does not consult the resolved maps. -/
def test1 (a b : Desc) : Option Desc :=
  if same_id a b && same_name a b && same_datasource a b then some b else none

/-- Test 2 (lines 316-321): same name and id, datasource changed. -/
def test2 (rw rn : RMap) (a b : Desc) : Option Desc :=
  if same_id a b && same_name a b && !is_resolved_was rw a && !is_resolved_now rn b then
    some b else none

/-- Test 3 (lines 322-327): same id and datasource, name changed. -/
def test3 (rw rn : RMap) (a b : Desc) : Option Desc :=
  if same_id a b && same_datasource a b && !is_resolved_was rw a && !is_resolved_now rn b then
    some b else none

/-- Test 4 (lines 328-332): same id alone. -/
def test4 (rw rn : RMap) (a b : Desc) : Option Desc :=
  if same_id a b && !is_resolved_was rw a && !is_resolved_now rn b then some b else none

/-- Test 5 (lines 333-338): same name and datasource, id changed. -/
def test5 (rw rn : RMap) (a b : Desc) : Option Desc :=
  if same_name a b && same_datasource a b && !is_resolved_was rw a && !is_resolved_now rn b then
    some b else none

/-- Test 6 (lines 339-342): same name, id/datasource changed. -/
def test6 (rw rn : RMap) (a b : Desc) : Option Desc :=
  if same_name a b && !is_resolved_was rw a && !is_resolved_now rn b then some b else none

/-- `test_if_matching_layer` (lines 345-352): the tests in order, short-circuit
on the first returning a match. -/
def test_if_matching_layer (rw rn : RMap) (a b : Desc) : Bool :=
  (test1 a b).isSome || (test2 rw rn a b).isSome || (test3 rw rn a b).isSome ||
    (test4 rw rn a b).isSome || (test5 rw rn a b).isSome || (test6 rw rn a b).isSome

/-- State threaded through the `for now_layer in now_layers` loop. -/
structure MLAcc where
  added : List Desc
  rw : RMap
  rn : RMap

/-- The matching loop (lines 354-368): for each new layer, the first old layer
any test accepts claims it (updating both resolved maps); otherwise the layer
is added and recorded unmatched. -/
def match_loop (was : List Desc) : List Desc → MLAcc → MLAcc
  | [], acc => acc
  | n :: rest, acc =>
    match was.find? (fun w => test_if_matching_layer acc.rw acc.rn w n) with
    | some w =>
      match_loop was rest ⟨acc.added, mset acc.rw (lidx w) (some n), mset acc.rn (lidx n) (some w)⟩
    | none =>
      match_loop was rest ⟨acc.added ++ [n], acc.rw, mset acc.rn (lidx n) none⟩

/-- The removed loop (lines 370-374): unresolved old layers are recorded
removed (and entered as `None` in `resolved_was`). -/
def removed_loop : List Desc → RMap → List Desc × RMap
  | [], rw0 => ([], rw0)
  | w :: ws, rw0 =>
    if (mlook rw0 (lidx w)).isSome then removed_loop ws rw0
    else
      let r := removed_loop ws (mset rw0 (lidx w) none)
      (w :: r.1, r.2)

/-- The matched loop (lines 376-379): old layers whose `resolved_was` entry is
a layer are paired with it, in old-list order.  (Python tests the entry's
truthiness; an entry is either `None` or a layer dict carrying at least its
`index` key, hence non-empty.) -/
def matched_of (was : List Desc) (rwf : RMap) : List (Desc × Desc) :=
  was.filterMap fun w =>
    match mlook rwf (lidx w) with
    | some (some n) => some (w, n)
    | _ => none

/-- The `(added, matched, removed)` result of `_match_layers`. -/
structure MLResult where
  added : List Desc
  matched : List (Desc × Desc)
  removed : List Desc
  deriving DecidableEq

/-- `_match_layers` (lines 291-381). -/
def match_layers (was_layers now_layers : List Desc) : MLResult :=
  let acc := match_loop was_layers now_layers ⟨[], [], []⟩
  let rr := removed_loop was_layers acc.rw
  ⟨acc.added, matched_of was_layers rr.2, rr.1⟩

/-! ## Field-level diffs and the frame/document comparison -/

/-- A reported field change. -/
structure DiffEntry where
  field : String
  was : Option Val
  now : Option Val
  deriving DecidableEq

/-- Modelled from the spec: the comparison tables (`DocumentChangeTypes`,
`MapChangeTypes`, `LayerChangeTypes` of the missing `compare_types` module)
walk a configured list of comparable fields, each marked shallow (`false`) or
deep (`true`), apply `_attr_shallow_eq` / `_attr_deep_eq` from the source, and
report a `{field, was, now}` entry when a field present on either side
compares unequal; a field present on neither side is never reported. -/
def diff_field_entry (a b : Desc) (fd : String × Bool) : Option DiffEntry :=
  match dget a fd.1, dget b fd.1 with
  | none, none => none
  | x, y =>
    if (if fd.2 then attr_deep_eq a b fd.1 else attr_shallow_eq a b fd.1) then none
    else some ⟨fd.1, x, y⟩

/-- The table walk itself. -/
def diff_fields (tbl : List (String × Bool)) (a b : Desc) : List DiffEntry :=
  tbl.filterMap (diff_field_entry a b)

/-- A map frame description as `compare` consumes it: frame-level fields and
the `layers` list. -/
structure CmpFrame where
  fields : Desc
  layers : List Desc
  deriving DecidableEq

/-- A whole map description: document fields and the `maps` list. -/
structure CmpDesc where
  fields : Desc
  maps : List CmpFrame
  deriving DecidableEq

/-- The per-frame diff assembled by `_compare_map_frames` (line 392).  The
source stores each updated layer's diff list under the layer's `"diff"` key;
it is modelled as the second pair component to keep `DiffEntry` typed.  The
`tables` bucket is never filled by the source. -/
structure FrameDiff where
  diff : List DiffEntry
  added : List Desc
  updated : List (Desc × List DiffEntry)
  removed : List Desc
  tables : List Desc
  deriving DecidableEq

/-- Python raises `TypeError` when `_compare_map_frames` subscripts a `None`
`now_map_desc` (line 401; the modelled frame differ's field access on `None`
fails the same way at line 398). -/
inductive CmpErr where
  | noneFrame : CmpErr
  deriving DecidableEq

/-- `_compare_map_frames` (lines 384-409): an absent old frame yields the empty
diff; an absent new frame makes Python subscript `None` — modelled as an error. -/
def compare_map_frames (layerTbl mapTbl : List (String × Bool)) (was now : Option CmpFrame) :
    Except CmpErr FrameDiff :=
  match was with
  | none => .ok ⟨[], [], [], [], []⟩
  | some wf =>
    match now with
    | none => .error .noneFrame
    | some nf =>
      let r := match_layers wf.layers nf.layers
      .ok
        { diff := diff_fields mapTbl wf.fields nf.fields
          added := r.added
          updated :=
            (r.matched.map fun p => (p.2, diff_fields layerTbl p.1 p.2)).filter
              fun q => !q.2.isEmpty
          removed := r.removed
          tables := [] }

/-- `itertools.zip_longest` with `None` fill. -/
def zipLongest {α β : Type} : List α → List β → List (Option α × Option β)
  | [], bs => bs.map fun b => (none, some b)
  | a :: as, [] => (some a, none) :: zipLongest as []
  | a :: as, b :: bs => (some a, some b) :: zipLongest as bs

/-- A Python list comprehension over fallible elements: the first raise aborts
the rest. -/
def mapME {α β ε : Type} (f : α → Except ε β) : List α → Except ε (List β)
  | [] => .ok []
  | a :: as =>
    match f a with
    | .error e => .error e
    | .ok b =>
      match mapME f as with
      | .error e => .error e
      | .ok bs => .ok (b :: bs)

instance {ε α : Type} [DecidableEq ε] [DecidableEq α] : DecidableEq (Except ε α) := fun x y =>
  match x, y with
  | .error e, .error f =>
    match decEq e f with
    | isTrue h => isTrue (h ▸ rfl)
    | isFalse h => isFalse fun hc => h (by cases hc; rfl)
  | .ok a, .ok b =>
    match decEq a b with
    | isTrue h => isTrue (h ▸ rfl)
    | isFalse h => isFalse fun hc => h (by cases hc; rfl)
  | .error _, .ok _ => isFalse fun hc => by cases hc
  | .ok _, .error _ => isFalse fun hc => by cases hc

/-- The result of `compare`: a document-level diff and one frame diff per
`zip_longest` position. -/
structure CmpResult where
  diff : List DiffEntry
  maps : List FrameDiff
  deriving DecidableEq

/-- `compare` (lines 136-153), for inputs that are already descriptions: the
document diff plus `_compare_map_frames` over positionally zipped frames. -/
def compare_docs (docTbl mapTbl layerTbl : List (String × Bool)) (was now : CmpDesc) :
    Except CmpErr CmpResult :=
  match mapME (fun p => compare_map_frames layerTbl mapTbl p.1 p.2) (zipLongest was.maps now.maps) with
  | .error e => .error e
  | .ok fds => .ok ⟨diff_fields docTbl was.fields now.fields, fds⟩

/-! ## The data-source template matcher
(`create_replacement_data_sources_list`, lines 156-230) -/

/-- The token set returned by the external `tokenise_datasource` collaborator. -/
structure Tokens where
  schema : Option String
  dataSet : Option String
  table : Option String
  deriving DecidableEq

/-- A replacement template as supplied by the caller.  `matchOptions` models
`template.get("matchOptions", {})`: an absent key is the empty mapping. -/
structure Template where
  matchCriteria : Desc
  dataSource : Desc
  matchOptions : Desc
  deriving DecidableEq

/-- A preprocessed template (lines 163-170): `matchCriteria` replaced by the
set of its lowercased items. -/
structure PTemplate where
  criteria : Desc
  dataSource : Desc
  matchOptions : Desc
  deriving DecidableEq

/-- The template preprocessing (lines 163-170):
`set(iteritems(lowercase_dict(template["matchCriteria"])))`. -/
def prep_template (t : Template) : PTemplate :=
  ⟨lcPairs t.matchCriteria, t.dataSource, t.matchOptions⟩

/-- The hashable frozen form produced by `freeze` (lines 173-181): frozensets
of pairs for dicts, tuples for lists, scalars unchanged. -/
inductive FVal : Type where
  | fNone : FVal
  | fBool : Bool → FVal
  | fInt : Int → FVal
  | fStr : String → FVal
  | fTup : List FVal → FVal
  | fSet : List (String × FVal) → FVal

mutual

/-- `freeze` (lines 173-181) after the case-lowering pass (`freeze` lowercases
each dict level via `lowercase_dict`; composing with the recursive `lcVal`
first, the structural part is this). -/
def freezeF : Val → FVal
  | vNone => .fNone
  | vBool b => .fBool b
  | vInt i => .fInt i
  | vStr s => .fStr s
  | vList l => .fTup (freezeFList l)
  | vDict ps => .fSet (freezeFPairs ps)

/-- `freeze` over dict items. -/
def freezeFPairs : List (String × Val) → List (String × FVal)
  | [] => []
  | (k, v) :: t => (k, freezeF v) :: freezeFPairs t

/-- `freeze` over list elements. -/
def freezeFList : List Val → List FVal
  | [] => []
  | v :: t => freezeF v :: freezeFList t

end

/-- `freeze` (lines 173-181): lowercase, then freeze. -/
def freeze (v : Val) : FVal := freezeF (lcVal v)

/-- `set(freeze(layer_or_table))` (line 194): the frozen attribute pair set of
a layer. -/
def frozen_attrs (l : Desc) : List (String × FVal) :=
  freezeFPairs (lcPairs l)

/-- Python equality between a criteria value (a hashable scalar; an
unhashable dict or list criteria value raises in Python when the set is built
at preprocessing time, so such a pair can never match) and a frozen layer
value.  Python's numeric equality `1 == True` is kept. -/
def scalar_matches_frozen : Val → FVal → Bool
  | vNone, .fNone => true
  | vBool x, .fBool y => x == y
  | vInt x, .fInt y => decide (x = y)
  | vStr x, .fStr y => decide (x = y)
  | vBool x, .fInt y => decide ((if x then (1 : Int) else 0) = y)
  | vInt x, .fBool y => decide (x = if y then (1 : Int) else 0)
  | _, _ => false

/-- `template["matchCriteria"].issubset(set(freeze(layer_or_table)))`
(line 194): every criteria pair occurs in the layer's frozen attribute set. -/
def criteria_subset (crit : Desc) (l : Desc) : Bool :=
  crit.all fun p => (frozen_attrs l).any fun q => decide (p.1 = q.1) && scalar_matches_frozen p.2 q.2

/-- Python's `x == True` (`.get` returns `None` for a missing key; `1 == True`
holds in Python). -/
def pyEqTrue : Option Val → Bool
  | some (vBool b) => b
  | some (vInt i) => decide (i = 1)
  | _ => false

/-- The group-layer exclusion (lines 186-189): a group layer that is not a
network-analyst layer cannot have its data source updated. -/
def is_excluded (l : Desc) : Bool :=
  pyEqTrue (dget l "isGroupLayer") && !pyEqTrue (dget l "isNetworkAnalystLayer")

/-- The two failure modes of the matcher: the explicit "no matching data
source" raise (line 223, `NoMatchingTemplateError` in the spec's taxonomy) and
Python's `KeyError` from subscripting a dict without the key (lines 203, 211). -/
inductive MErr : Type where
  | noMatchingTemplate : MErr
  | keyError : MErr
  deriving DecidableEq

/-- Python `str()` of a scalar, as `"{}".format` renders it.  Composite values
render their repr in Python; no compared scenario reaches that case. -/
def pyStr : Val → String
  | vStr s => s
  | vInt i => toString i
  | vBool true => "True"
  | vBool false => "False"
  | vNone => "None"
  | vList _ => ""
  | vDict _ => ""

/-- `"{}".format(token)` for an optional token (`str(None)` is `"None"`). -/
def pyStrOpt : Option String → String
  | some s => s
  | none => "None"

/-- `template.get("matchOptions", {}).get("isWorkspaceContainer") == True`
(line 199). -/
def is_container (t : PTemplate) : Bool :=
  pyEqTrue (dget t.matchOptions "isWorkspaceContainer")

/-- The workspace path patterns (lines 209-219), in the source's order:
schema and dataSet, dataSet only, otherwise table. -/
def derive_workspace (base : String) (tk : Tokens) : String :=
  match tk.dataSet, tk.schema with
  | some d, some sc => base ++ "\\" ++ sc ++ "." ++ d ++ ".gdb"
  | some d, none => base ++ "\\" ++ d ++ ".gdb"
  | none, _ => base ++ "\\" ++ pyStrOpt tk.table ++ ".gdb"

/-- The body run for a matching template (lines 195-221): shallow-copy its
`dataSource`; when the template is a workspace container, tokenise the layer's
data source and overwrite `workspacePath` unless the tokenizer returns `None`. -/
def apply_container (tok : Val → Option Tokens) (t : PTemplate) (l : Desc) : Except MErr Desc :=
  if is_container t then
    match dget l "dataSource" with
    | none => .error .keyError
    | some ds =>
      match tok ds with
      | none => .ok t.dataSource
      | some tk =>
        match dget t.dataSource "workspacePath" with
        | none => .error .keyError
        | some wp => .ok (dset t.dataSource "workspacePath" (vStr (derive_workspace (pyStr wp) tk)))
  else .ok t.dataSource

/-- The `for template in template_sets` loop (lines 192-221): first template
whose criteria are a subset of the layer's frozen attributes wins, `break`. -/
def mnds_loop (tok : Val → Option Tokens) : List PTemplate → Desc → Except MErr (Option Desc)
  | [], _ => .ok none
  | t :: rest, l =>
    if criteria_subset t.criteria l then
      match apply_container tok t l with
      | .error e => .error e
      | .ok c => .ok (some c)
    else mnds_loop tok rest l

/-- `match_new_data_source` (lines 183-225). -/
def match_new_data_source (tok : Val → Option Tokens) (ts : List PTemplate) (raiseFlag : Bool)
    (lo : Option Desc) : Except MErr (Option Desc) :=
  match lo with
  | none => .ok none
  | some l =>
    if is_excluded l then .ok none
    else
      match mnds_loop tok ts l with
      | .error e => .error e
      | .ok none => if raiseFlag then .error .noMatchingTemplate else .ok none
      | .ok (some c) => .ok (some c)

/-- The first template whose criteria match the layer, by list order. -/
def find_template (ts : List PTemplate) (l : Desc) : Option PTemplate :=
  ts.find? fun t => criteria_subset t.criteria l

/-- A frame of the description consumed by the matcher: layer and table entries
may be `None` (undescribable). -/
structure MFrame where
  layers : List (Option Desc)
  tables : List (Option Desc)

/-- `create_replacement_data_sources_list` (lines 156-230). -/
def create_replacement_data_sources_list (tok : Val → Option Tokens)
    (templates : List Template) (raiseFlag : Bool) (maps : List MFrame) :
    Except MErr (List (List (Option Desc) × List (Option Desc))) :=
  let ts := templates.map prep_template
  mapME
    (fun df =>
      match mapME (match_new_data_source tok ts raiseFlag) df.layers with
      | .error e => .error e
      | .ok ls =>
        match mapME (match_new_data_source tok ts raiseFlag) df.tables with
        | .error e => .error e
        | .ok tbs => .ok (ls, tbs))
    maps

/-! ## Concrete example data used by witnesses and counterexamples -/

/-- An old layer: index 0, `Roads`, service id 1, data source `A`. -/
def exX : Desc :=
  [("index", vInt 0), ("name", vStr "Roads"), ("serviceId", vInt 1),
   ("dataSource", vDict [("workspacePath", vStr "A")])]

/-- A new layer identical to `exX` (index 0). -/
def exN1 : Desc :=
  [("index", vInt 0), ("name", vStr "Roads"), ("serviceId", vInt 1),
   ("dataSource", vDict [("workspacePath", vStr "A")])]

/-- A second new layer identical to `exX` except its index (1). -/
def exN2 : Desc :=
  [("index", vInt 1), ("name", vStr "Roads"), ("serviceId", vInt 1),
   ("dataSource", vDict [("workspacePath", vStr "A")])]

/-- A layer for the identity scenario. -/
def exA : Desc :=
  [("index", vInt 0), ("name", vStr "L"), ("serviceId", vInt 1), ("dataSource", vDict [])]

/-- `exA`'s twin: identical except its index. -/
def exB : Desc :=
  [("index", vInt 1), ("name", vStr "L"), ("serviceId", vInt 1), ("dataSource", vDict [])]

/-- An old layer matching the new layer `exN` only by name. -/
def exY : Desc :=
  [("index", vInt 0), ("name", vStr "Roads"), ("serviceId", vInt 7),
   ("dataSource", vDict [("workspacePath", vStr "B")])]

/-- An old layer matching the new layer `exN` by service id (name and data
source differ). -/
def exXid : Desc :=
  [("index", vInt 1), ("name", vStr "Streets"), ("serviceId", vInt 1),
   ("dataSource", vDict [("workspacePath", vStr "C")])]

/-- The new layer of the order-of-tests scenario. -/
def exN : Desc :=
  [("index", vInt 0), ("name", vStr "Roads"), ("serviceId", vInt 1),
   ("dataSource", vDict [("workspacePath", vStr "D")])]

/-- A tokenizer returning the spec's example tokens. -/
def exTok : Val → Option Tokens := fun _ => some ⟨some "dbo", some "Roads", some "Roads_Lines"⟩

/-- A tokenizer that cannot parse any data source. -/
def exTokNone : Val → Option Tokens := fun _ => none

/-- A workspace-container template whose criteria match `exL`. -/
def exT : Template :=
  ⟨[("tYpe", vStr "Feature")], [("workspacePath", vStr "C:\\Data")],
   [("isWorkspaceContainer", vBool true)]⟩

/-- A template matching no example layer. -/
def exTZ : Template := ⟨[("zz", vStr "qq")], [("workspacePath", vStr "W")], []⟩

/-- A describable, non-group layer. -/
def exL : Desc :=
  [("type", vStr "feature"), ("name", vStr "Roads"), ("dataSource", vDict [("x", vStr "y")])]

/-- A group layer that is not a network-analyst layer. -/
def exLG : Desc :=
  [("isGroupLayer", vBool true), ("type", vStr "feature"), ("dataSource", vDict [])]

/-! ## Helper lemmas -/

theorem rsList_eq_map (l : List Val) : rsList l = l.map recursive_sort := by
  induction l with
  | nil => rfl
  | cons a t ih => simp [rsList, ih]

theorem rsPairs_eq_map (ps : List (String × Val)) :
    rsPairs ps = ps.map fun p => (p.1, recursive_sort p.2) := by
  induction ps with
  | nil => rfl
  | cons p t ih => obtain ⟨k, v⟩ := p; simp [rsPairs, ih]

theorem isortVals_perm_eq {l m : List Val} (h : l.Perm m) :
    List.insertionSort vleP l = List.insertionSort vleP m :=
  List.eq_of_perm_of_sorted
    ((List.perm_insertionSort _ _).trans (h.trans (List.perm_insertionSort _ _).symm))
    (List.sorted_insertionSort _ _) (List.sorted_insertionSort _ _)

theorem isortPairs_perm_eq {ps qs : List (String × Val)} (h : ps.Perm qs) :
    List.insertionSort pleP ps = List.insertionSort pleP qs :=
  List.eq_of_perm_of_sorted
    ((List.perm_insertionSort _ _).trans (h.trans (List.perm_insertionSort _ _).symm))
    (List.sorted_insertionSort _ _) (List.sorted_insertionSort _ _)

theorem mnds_loop_eq_find (tok : Val → Option Tokens) (ts : List PTemplate) (l : Desc) :
    mnds_loop tok ts l =
      match find_template ts l with
      | none => .ok none
      | some t =>
        match apply_container tok t l with
        | .error e => .error e
        | .ok c => .ok (some c) := by
  induction ts with
  | nil => rfl
  | cons t rest ih =>
    show (if criteria_subset t.criteria l then _ else mnds_loop tok rest l) = _
    cases h : criteria_subset t.criteria l with
    | true => simp [h, find_template, List.find?_cons]
    | false =>
      rw [if_neg (by simp [h])]
      rw [ih]
      simp [find_template, List.find?_cons, h]

theorem mapME_append_error {α β ε : Type} (f : α → Except ε β) (pre post : List α) (y : α)
    (vs : List β) (e : ε) (hp : mapME f pre = .ok vs) (hy : f y = .error e) :
    mapME f (pre ++ y :: post) = .error e := by
  induction pre generalizing vs with
  | nil => simp [mapME, hy]
  | cons a as ih =>
    simp only [mapME, List.cons_append] at hp ⊢
    cases ha : f a with
    | error e' => rw [ha] at hp; simp at hp
    | ok b =>
      rw [ha] at hp
      cases hm : mapME f as with
      | error e' => rw [hm] at hp; simp at hp
      | ok bs =>
        have ihh : mapME f (as.append (y :: post)) = Except.error e := ih bs hm
        rw [ihh]

theorem apply_container_no_raise (tok : Val → Option Tokens) (t : PTemplate) (l : Desc) :
    apply_container tok t l ≠ Except.error MErr.noMatchingTemplate := by
  unfold apply_container
  by_cases hct : is_container t = true
  · rw [if_pos hct]
    cases hds : dget l "dataSource" with
    | none => simp
    | some ds =>
      cases htk : tok ds with
      | none => simp [htk]
      | some tk =>
        cases hwp : dget t.dataSource "workspacePath" with
        | none => simp [htk]
        | some wp => simp [htk]
  · rw [if_neg hct]
    simp

theorem mnds_result_of_find (tok : Val → Option Tokens) (ts : List PTemplate) (flag : Bool)
    (l : Desc) (hx : is_excluded l = false) :
    match_new_data_source tok ts flag (some l) =
      match find_template ts l with
      | none => if flag then .error .noMatchingTemplate else .ok none
      | some T => Except.map some (apply_container tok T l) := by
  have hl := mnds_loop_eq_find tok ts l
  cases hf : find_template ts l with
  | none => rw [hf] at hl; simp [match_new_data_source, hx, hl]
  | some T =>
    rw [hf] at hl
    cases ha : apply_container tok T l with
    | error e => simp [match_new_data_source, hx, hl, ha, Except.map]
    | ok c => simp [match_new_data_source, hx, hl, ha, Except.map]

/-! ## The claims -/

/-- Claim C7: for a layer matched by a workspace-container template whose data
source tokenizes, exactly one of the three patterns, in the source's priority
order, sets the replacement's `workspacePath`: schema and dataSet present gives
`base\schema.dataSet.gdb`; dataSet only gives `base\dataSet.gdb`; otherwise
`base\table.gdb`. -/
theorem c7_workspace_path (tok : Val → Option Tokens) (templates : List Template) (flag : Bool)
    (l : Desc) (T : PTemplate) (ds : Val) (tk : Tokens) (base : String)
    (hx : is_excluded l = false)
    (hT : find_template (templates.map prep_template) l = some T)
    (hc : is_container T = true)
    (hds : dget l "dataSource" = some ds)
    (htk : tok ds = some tk)
    (hwp : dget T.dataSource "workspacePath" = some (vStr base)) :
    match_new_data_source tok (templates.map prep_template) flag (some l) =
      .ok (some (dset T.dataSource "workspacePath" (vStr
        (match tk.dataSet, tk.schema with
         | some d, some sc => base ++ "\\" ++ sc ++ "." ++ d ++ ".gdb"
         | some d, none => base ++ "\\" ++ d ++ ".gdb"
         | none, _ => base ++ "\\" ++ pyStrOpt tk.table ++ ".gdb")))) := by
  have hr := mnds_result_of_find tok (templates.map prep_template) flag l hx
  rw [hT] at hr
  have hr' : match_new_data_source tok (templates.map prep_template) flag (some l) =
      Except.map some (apply_container tok T l) := hr
  have ha : apply_container tok T l =
      .ok (dset T.dataSource "workspacePath" (vStr (derive_workspace base tk))) := by
    simp [apply_container, hc, hds, htk, hwp, pyStr]
  rw [ha] at hr'
  rw [hr']
  simp [Except.map, derive_workspace]

/-- Witness for C7: the spec's concrete scenario, base path `C:\Data` with
tokens `{schema: dbo, dataSet: Roads, table: Roads_Lines}` derives
`C:\Data\dbo.Roads.gdb`. -/
theorem c7_workspace_path_witness :
    match_new_data_source exTok ([exT].map prep_template) false (some exL) =
      .ok (some (dset (prep_template exT).dataSource "workspacePath"
        (vStr ("C:\\Data" ++ "\\" ++ "dbo" ++ "." ++ "Roads" ++ ".gdb")))) :=
  c7_workspace_path exTok [exT] false exL (prep_template exT)
    (vDict [("x", vStr "y")]) ⟨some "dbo", some "Roads", some "Roads_Lines"⟩ "C:\\Data"
    (by decide) (by decide) (by decide) (by decide) (by decide) (by decide)

/-- Claim C8: for a describable layer that is not an excluded group layer, the
matcher's result is computed from the first template, in caller-supplied order,
whose lowercased, frozen `matchCriteria` pair set is contained in the layer's
frozen attribute set — later templates are never evaluated — and when that
first match is not a workspace container the result is exactly the copy of its
`dataSource`; a group layer that is not a network-analyst layer yields `None`
regardless of the templates. -/
theorem c8_first_template_wins (tok : Val → Option Tokens) (templates : List Template)
    (flag : Bool) (l : Desc) :
    (is_excluded l = true →
      match_new_data_source tok (templates.map prep_template) flag (some l) = .ok none) ∧
    (is_excluded l = false →
      ∀ T, find_template (templates.map prep_template) l = some T →
        match_new_data_source tok (templates.map prep_template) flag (some l) =
          Except.map some (apply_container tok T l) ∧
        (is_container T = false →
          match_new_data_source tok (templates.map prep_template) flag (some l) =
            .ok (some T.dataSource))) := by
  constructor
  · intro hx
    simp [match_new_data_source, hx]
  · intro hx T hT
    have hr := mnds_result_of_find tok (templates.map prep_template) flag l hx
    rw [hT] at hr
    have hr' : match_new_data_source tok (templates.map prep_template) flag (some l) =
        Except.map some (apply_container tok T l) := hr
    refine ⟨hr', fun hc => ?_⟩
    have ha : apply_container tok T l = .ok T.dataSource := by
      simp [apply_container, hc]
    rw [ha] at hr'
    rw [hr']
    rfl

/-- Witness for C8: the excluded group layer yields `None` although a template
matches it structurally; the eligible layer's result is the first template's
processed data source. -/
theorem c8_first_template_wins_witness :
    match_new_data_source exTok ([exT].map prep_template) false (some exL) =
      Except.map some (apply_container exTok (prep_template exT) exL) ∧
    match_new_data_source exTok ([exTZ].map prep_template) true (some exLG) = .ok none :=
  ⟨((c8_first_template_wins exTok [exT] false exL).2 (by decide) (prep_template exT)
      (by decide)).1,
   (c8_first_template_wins exTok [exTZ] true exLG).1 (by decide)⟩

/-- Claim C9: for a describable, non-excluded layer, the no-matching-template
error is raised iff the raise flag is set and no template's criteria match the
layer; with the flag unset the result is `None` instead; and a raised error
propagates through the surrounding list processing, aborting the remaining
layers.  (The source spells the error `RuntimeError("No matching data
source was found for layer")`; the spec's taxonomy names it
`NoMatchingTemplateError`.) -/
theorem c9_raise_iff (tok : Val → Option Tokens) (templates : List Template) (l : Desc)
    (hx : is_excluded l = false) :
    (match_new_data_source tok (templates.map prep_template) true (some l) =
        .error .noMatchingTemplate ↔
      find_template (templates.map prep_template) l = none) ∧
    (match_new_data_source tok (templates.map prep_template) false (some l) ≠
      .error .noMatchingTemplate) ∧
    (find_template (templates.map prep_template) l = none →
      match_new_data_source tok (templates.map prep_template) false (some l) = .ok none) ∧
    (∀ (flag : Bool) (e : MErr) (pre post : List (Option Desc)) (y : Option Desc)
        (vs : List (Option Desc)),
      mapME (match_new_data_source tok (templates.map prep_template) flag) pre = .ok vs →
      match_new_data_source tok (templates.map prep_template) flag y = .error e →
      mapME (match_new_data_source tok (templates.map prep_template) flag)
        (pre ++ y :: post) = .error e) := by
  refine ⟨?_, ?_, ?_, fun flag e pre post y vs hp hy => mapME_append_error _ _ _ _ _ _ hp hy⟩
  · have hr := mnds_result_of_find tok (templates.map prep_template) true l hx
    cases hf : find_template (templates.map prep_template) l with
    | none => rw [hf] at hr; simp [hr]
    | some T =>
      rw [hf] at hr
      have hr' : match_new_data_source tok (templates.map prep_template) true (some l) =
          Except.map some (apply_container tok T l) := hr
      rw [hr']
      constructor
      · intro hc
        cases ha : apply_container tok T l with
        | error e =>
          rw [ha] at hc
          simp [Except.map] at hc
          exact absurd (by rw [ha, hc]) (apply_container_no_raise tok T l)
        | ok c => rw [ha] at hc; simp [Except.map] at hc
      · intro h; cases h
  · have hr := mnds_result_of_find tok (templates.map prep_template) false l hx
    cases hf : find_template (templates.map prep_template) l with
    | none => rw [hf] at hr; simp [hr]
    | some T =>
      rw [hf] at hr
      have hr' : match_new_data_source tok (templates.map prep_template) false (some l) =
          Except.map some (apply_container tok T l) := hr
      rw [hr']
      cases ha : apply_container tok T l with
      | error e =>
        intro hc
        simp [Except.map] at hc
        exact apply_container_no_raise tok T l (by rw [ha, hc])
      | ok c => simp [Except.map]
  · intro hf
    have hr := mnds_result_of_find tok (templates.map prep_template) false l hx
    rw [hf] at hr
    simpa using hr

/-- Witness for C9: with the flag set and no matching template the error is
raised; with the flag unset the entry is `None`; a failing layer aborts the
processing of the layers after it. -/
theorem c9_raise_iff_witness :
    (match_new_data_source exTok ([exTZ].map prep_template) true (some exL) =
      .error .noMatchingTemplate) ∧
    (match_new_data_source exTok ([exTZ].map prep_template) false (some exL) = .ok none) ∧
    mapME (match_new_data_source exTok ([exTZ].map prep_template) true)
      ([none] ++ some exL :: [none]) = .error .noMatchingTemplate :=
  have h := c9_raise_iff exTok [exTZ] exL (by decide)
  ⟨h.1.mpr (by decide), h.2.2.1 (by decide),
   h.2.2.2 true .noMatchingTemplate [none] [none] (some exL) [none] (by decide)
     (h.1.mpr (by decide))⟩

/-- Claim C10: when a workspace-container template is the first match but the
tokenizer cannot parse the layer's data source (`tokenise_datasource` returns
`None`), the matcher still returns the shallow copy of the template's
`dataSource` with its `workspacePath` exactly as given; no derivation happens
and no error is raised. -/
theorem c10_tokenizer_none (tok : Val → Option Tokens) (templates : List Template) (flag : Bool)
    (l : Desc) (T : PTemplate) (ds : Val)
    (hx : is_excluded l = false)
    (hT : find_template (templates.map prep_template) l = some T)
    (hc : is_container T = true)
    (hds : dget l "dataSource" = some ds)
    (htk : tok ds = none) :
    match_new_data_source tok (templates.map prep_template) flag (some l) =
      .ok (some T.dataSource) := by
  have hr := mnds_result_of_find tok (templates.map prep_template) flag l hx
  rw [hT] at hr
  have hr' : match_new_data_source tok (templates.map prep_template) flag (some l) =
      Except.map some (apply_container tok T l) := hr
  have ha : apply_container tok T l = .ok T.dataSource := by
    simp [apply_container, hc, hds, htk]
  rw [ha] at hr'
  rw [hr']
  rfl

/-- Witness for C10: the container template's `workspacePath` stays `C:\Data`
when the tokenizer returns `None`. -/
theorem c10_tokenizer_none_witness :
    match_new_data_source exTokNone ([exT].map prep_template) false (some exL) =
      .ok (some (prep_template exT).dataSource) :=
  c10_tokenizer_none exTokNone [exT] false exL (prep_template exT) (vDict [("x", vStr "y")])
    (by decide) (by decide) (by decide) (by decide) (by decide)

/-- Counterexample to C2 as stated: the old layer `exX` is already resolved
(claimed by `exN1`), yet the most specific test — same id, name and data
source — still matches it for the distinct new layer `exN2`: test 1 consults
no resolved map. -/
theorem c2_counterexample :
    is_resolved_was [(vInt 0, some exN1)] exX = true ∧ exN1 ≠ exN2 ∧
      test1 exX exN2 = some exN2 := by decide

/-- Claim C2 (corrected): a resolved layer is excluded from matching by tests
2 to 6 — each returns no match as soon as the old layer or the new layer is
resolved — but not by the most specific test (same id, name and data source),
which carries no resolved-map guard. -/
theorem c2_resolved_exclusion_amended (rw0 rn0 : RMap) (a b : Desc)
    (h : is_resolved_was rw0 a = true ∨ is_resolved_now rn0 b = true) :
    test2 rw0 rn0 a b = none ∧ test3 rw0 rn0 a b = none ∧ test4 rw0 rn0 a b = none ∧
      test5 rw0 rn0 a b = none ∧ test6 rw0 rn0 a b = none := by
  rcases h with h | h <;>
    exact ⟨by simp [test2, h], by simp [test3, h], by simp [test4, h], by simp [test5, h],
      by simp [test6, h]⟩

/-- Witness for the amended C2: at the counterexample's resolved map, none of
tests 2-6 matches the already-claimed old layer. -/
theorem c2_resolved_exclusion_amended_witness :
    test2 [(vInt 0, some exN1)] [] exX exN2 = none ∧
      test3 [(vInt 0, some exN1)] [] exX exN2 = none ∧
      test4 [(vInt 0, some exN1)] [] exX exN2 = none ∧
      test5 [(vInt 0, some exN1)] [] exX exN2 = none ∧
      test6 [(vInt 0, some exN1)] [] exX exN2 = none :=
  c2_resolved_exclusion_amended [(vInt 0, some exN1)] [] exX exN2 (Or.inl (by decide))

/-- Counterexample to C3 as stated: the old layer `exXid` matches the new
layer `exN` by service id and `exY` matches it only by name, but with `exY`
first in the old list the reconciler pairs `exN` with `exY` — position, not
test priority, decides between candidates. -/
theorem c3_counterexample :
    same_id exXid exN = true ∧ same_name exY exN = true ∧ same_id exY exN = false ∧
      same_datasource exY exN = false ∧
      match_layers [exY, exXid] [exN] = ⟨[], [(exY, exN)], [exXid]⟩ := by decide

/-- Claim C3 (corrected): the reconciler scans the old layers in list order and
takes the first one any test accepts, so old-list position resolves
cross-candidate ties; when the id-matching layer X precedes the layer Y that
matches only by name, the id-based match wins and the new layer is paired
with X (with Y first, the name match wins instead, as the counterexample
shows). -/
theorem c3_order_amended (X Y n : Desc)
    (hid : same_id X n = true)
    (_hYname : same_name Y n = true) (_hYid : same_id Y n = false)
    (_hYds : same_datasource Y n = false)
    (hxy : lidx X ≠ lidx Y) :
    match_layers [X, Y] [n] = ⟨[], [(X, n)], [Y]⟩ := by
  have ht : test_if_matching_layer [] [] X n = true := by
    simp [test_if_matching_layer, test4, hid, is_resolved_was, is_resolved_now, mlook]
  have hfind : [X, Y].find? (fun w => test_if_matching_layer [] [] w n) = some X := by
    simp [List.find?_cons, ht]
  simp [match_layers, match_loop, hfind, mset, removed_loop, mlook, hxy, matched_of]

/-- Witness for the amended C3: with the id-matching old layer first, the new
layer pairs with it. -/
theorem c3_order_amended_witness :
    match_layers [exXid, exY] [exN] = ⟨[], [(exXid, exN)], [exY]⟩ :=
  c3_order_amended exXid exY exN (by decide) (by decide) (by decide) (by decide) (by decide)

theorem rs_perm_vList {l m : List Val} (h : l.Perm m) :
    recursive_sort (vList l) = recursive_sort (vList m) := by
  show vList (List.insertionSort vleP (rsList l)) = vList (List.insertionSort vleP (rsList m))
  rw [rsList_eq_map, rsList_eq_map]
  exact congrArg vList (isortVals_perm_eq (h.map recursive_sort))

theorem rs_perm_vDict {ps qs : List (String × Val)} (h : ps.Perm qs) :
    recursive_sort (vDict ps) = recursive_sort (vDict qs) := by
  show vDict (List.insertionSort pleP (rsPairs ps)) = vDict (List.insertionSort pleP (rsPairs qs))
  rw [rsPairs_eq_map, rsPairs_eq_map]
  exact congrArg vDict (isortPairs_perm_eq (h.map fun p => (p.1, recursive_sort p.2)))

/-- Counterexample to C5 as stated: `_recursive_sort` never case-folds, so the
canonical equality it induces distinguishes `"Foo"` from `"foo"`, and the
claim's mixed-case mapping example fails as well. -/
theorem c5_counterexample :
    recursive_sort (vStr "Foo") ≠ recursive_sort (vStr "foo") ∧
      recursive_sort (vDict [("A", vInt 1), ("B", vInt 2)]) ≠
        recursive_sort (vDict [("b", vInt 2), ("a", vInt 1)]) := by decide

/-- Claim C5 (corrected): equality of `_recursive_sort` canonical forms — the
equality `_attr_deep_eq` uses for deep field comparison — is an equivalence
relation and is insensitive to mapping item order and to sequence element
order (for any permutation), and in particular
`canonicalize([1,2,3]) == canonicalize([3,1,2])` and the same-case mapping
example hold; it is not insensitive to string case. -/
theorem c5_canonical_amended :
    (∀ a : Val, recursive_sort a = recursive_sort a) ∧
    (∀ a b : Val, recursive_sort a = recursive_sort b → recursive_sort b = recursive_sort a) ∧
    (∀ a b c : Val, recursive_sort a = recursive_sort b → recursive_sort b = recursive_sort c →
      recursive_sort a = recursive_sort c) ∧
    (∀ l m : List Val, l.Perm m → recursive_sort (vList l) = recursive_sort (vList m)) ∧
    (∀ ps qs : List (String × Val), ps.Perm qs →
      recursive_sort (vDict ps) = recursive_sort (vDict qs)) ∧
    recursive_sort (vList [vInt 1, vInt 2, vInt 3]) =
      recursive_sort (vList [vInt 3, vInt 1, vInt 2]) ∧
    recursive_sort (vDict [("A", vInt 1), ("B", vInt 2)]) =
      recursive_sort (vDict [("B", vInt 2), ("A", vInt 1)]) :=
  ⟨fun _ => rfl, fun _ _ h => h.symm, fun _ _ _ h1 h2 => h1.trans h2,
   fun _ _ h => rs_perm_vList h, fun _ _ h => rs_perm_vDict h, by decide, by decide⟩

/-- Witness for the amended C5: the permutation clause applied at a concrete
two-element list. -/
theorem c5_canonical_amended_witness :
    recursive_sort (vList [vStr "x", vStr "y"]) = recursive_sort (vList [vStr "y", vStr "x"]) :=
  c5_canonical_amended.2.2.2.1 [vStr "x", vStr "y"] [vStr "y", vStr "x"] (by decide)

theorem compare_map_frames_none (layerTbl mapTbl : List (String × Bool)) (nf : Option CmpFrame) :
    compare_map_frames layerTbl mapTbl none nf = .ok ⟨[], [], [], [], []⟩ := rfl

theorem mapME_frames_none (layerTbl mapTbl : List (String × Bool)) (ns : List CmpFrame) :
    mapME (fun p => compare_map_frames layerTbl mapTbl p.1 p.2)
      (ns.map fun n => ((none : Option CmpFrame), some n)) =
      .ok (ns.map fun _ => ⟨[], [], [], [], []⟩) := by
  induction ns with
  | nil => rfl
  | cons n t ih =>
    simp only [List.map_cons, mapME, compare_map_frames_none, ih]

theorem mapME_frames_ok (layerTbl mapTbl : List (String × Bool)) :
    (ws ns : List CmpFrame) → ws.length ≤ ns.length →
      ∃ fds,
        mapME (fun p => compare_map_frames layerTbl mapTbl p.1 p.2) (zipLongest ws ns) =
          .ok fds ∧
        fds.length = ns.length ∧
        ∀ i (hi : i < fds.length), ws.length ≤ i → fds[i] = ⟨[], [], [], [], []⟩
  | [], ns, _ => by
    refine ⟨ns.map fun _ => ⟨[], [], [], [], []⟩, ?_, by simp, ?_⟩
    · show mapME _ (ns.map fun n => ((none : Option CmpFrame), some n)) = _
      exact mapME_frames_none layerTbl mapTbl ns
    · intro i hi _
      simp
  | w :: ws, [], h => by simp at h
  | w :: ws, n :: ns, h => by
    obtain ⟨fds, hm, hlen, hidx⟩ := mapME_frames_ok layerTbl mapTbl ws ns (by simpa using h)
    obtain ⟨fd, hfd⟩ :
        ∃ fd, compare_map_frames layerTbl mapTbl (some w) (some n) = .ok fd := ⟨_, rfl⟩
    refine ⟨fd :: fds, ?_, by simp [hlen], ?_⟩
    · show mapME _ ((some w, some n) :: zipLongest ws ns) = _
      simp [mapME, hfd, hm]
    · intro i hi hwi
      cases i with
      | zero => simp at hwi
      | succ j =>
        simp only [List.getElem_cons_succ]
        exact hidx j (by simpa using hi) (Nat.succ_le_succ_iff.mp hwi)

/-- Counterexample to C6 as stated: with one old frame and zero new frames —
maps lists of different lengths — `compare` does not return a frame diff per
position; it fails (Python subscripts the padded `None` new frame). -/
theorem c6_counterexample :
    compare_docs [] [] [] ⟨[], [⟨[], []⟩]⟩ ⟨[], []⟩ = .error .noneFrame := rfl

/-- Claim C6 (corrected): `compare` pairs frames positionally with `None`
padding and, whenever the new maps list is at least as long as the old one,
returns one frame diff per position of the longer (new) list, every position
whose old frame is the `None` padding yielding the empty frame diff; when the
old list is longer the padded `None` new frame is subscripted and the
comparison fails instead of tolerating the mismatch. -/
theorem c6_frame_padding_amended (docTbl mapTbl layerTbl : List (String × Bool))
    (was now : CmpDesc) (h : was.maps.length ≤ now.maps.length) :
    ∃ r, compare_docs docTbl mapTbl layerTbl was now = .ok r ∧
      r.maps.length = now.maps.length ∧
      ∀ i (hi : i < r.maps.length), was.maps.length ≤ i → r.maps[i] = ⟨[], [], [], [], []⟩ := by
  obtain ⟨fds, hm, hlen, hidx⟩ := mapME_frames_ok layerTbl mapTbl was.maps now.maps h
  refine ⟨⟨diff_fields docTbl was.fields now.fields, fds⟩, ?_, hlen, ?_⟩
  · simp [compare_docs, hm]
  · intro i hi hwi
    exact hidx i hi hwi

/-- Witness for the amended C6: zero old frames against one new frame
compares without error, with the single position's diff empty. -/
theorem c6_frame_padding_amended_witness :
    (⟨[], []⟩ : CmpDesc).maps.length ≤ (⟨[], [⟨[], []⟩]⟩ : CmpDesc).maps.length ∧
    ∃ r, compare_docs [] [] [] ⟨[], []⟩ ⟨[], [⟨[], []⟩]⟩ = .ok r ∧
      r.maps.length = (⟨[], [⟨[], []⟩]⟩ : CmpDesc).maps.length ∧
      ∀ i (hi : i < r.maps.length), (⟨[], []⟩ : CmpDesc).maps.length ≤ i →
        r.maps[i] = ⟨[], [], [], [], []⟩ :=
  ⟨by decide, c6_frame_padding_amended [] [] [] ⟨[], []⟩ ⟨[], [⟨[], []⟩]⟩ (by decide)⟩

/-! ## Resolved-map and reconciler lemmas -/

/-- The resolved map after the identity run has claimed exactly the layers of
`pre`, each by itself. -/
def mkR (pre : List Desc) : RMap := pre.map fun l => (lidx l, some l)

theorem mlook_mset_self (m : RMap) (k : Val) (v : Option Desc) : mlook (mset m k v) k = some v := by
  induction m with
  | nil => simp [mset, mlook]
  | cons p t ih =>
    obtain ⟨k', w⟩ := p
    by_cases h : k' = k
    · simp [mset, h, mlook]
    · simp [mset, h, mlook, ih]

theorem mlook_mset_ne (m : RMap) {k j : Val} (v : Option Desc) (h : k ≠ j) :
    mlook (mset m k v) j = mlook m j := by
  induction m with
  | nil => simp [mset, mlook, h]
  | cons p t ih =>
    obtain ⟨k', w⟩ := p
    by_cases h' : k' = k
    · subst h'
      simp [mset, mlook, h]
    · simp [mset, h', mlook, ih]

theorem mset_append_of_none (m : RMap) (k : Val) (v : Option Desc) (h : mlook m k = none) :
    mset m k v = m ++ [(k, v)] := by
  induction m with
  | nil => rfl
  | cons p t ih =>
    obtain ⟨k', w⟩ := p
    by_cases h' : k' = k
    · rw [mlook, if_pos h'] at h
      cases h
    · rw [mlook, if_neg h'] at h
      simp [mset, h', ih h]

theorem mlook_mkR_isSome {pre : List Desc} {w : Desc} (hw : w ∈ pre) :
    (mlook (mkR pre) (lidx w)).isSome = true := by
  induction pre with
  | nil => cases hw
  | cons l t ih =>
    by_cases h : lidx l = lidx w
    · simp [mkR, mlook, h]
    · rcases List.mem_cons.mp hw with rfl | hw'
      · exact absurd rfl h
      · simp only [mkR, List.map_cons, mlook, if_neg h]
        exact ih hw'

theorem mlook_mkR_none {pre : List Desc} {j : Val} (h : ∀ w ∈ pre, lidx w ≠ j) :
    mlook (mkR pre) j = none := by
  induction pre with
  | nil => rfl
  | cons l t ih =>
    simp only [mkR, List.map_cons, mlook]
    rw [if_neg (h l (List.mem_cons_self l t))]
    exact ih fun w hw => h w (List.mem_cons_of_mem l hw)

theorem mlook_mkR_mem {pre : List Desc} {w : Desc} (hnd : (pre.map lidx).Nodup) (hw : w ∈ pre) :
    mlook (mkR pre) (lidx w) = some (some w) := by
  induction pre with
  | nil => cases hw
  | cons l t ih =>
    rcases List.mem_cons.mp hw with rfl | hw'
    · simp [mkR, mlook]
    · have hne : lidx l ≠ lidx w := by
        intro he
        have : lidx w ∈ t.map lidx := List.mem_map_of_mem lidx hw'
        rw [← he] at this
        exact (List.nodup_cons.mp hnd).1 this
      simp only [mkR, List.map_cons, mlook, if_neg hne]
      exact ih (List.nodup_cons.mp hnd).2 hw'

theorem mkR_append_one (pre : List Desc) (n : Desc) :
    mkR (pre ++ [n]) = mkR pre ++ [(lidx n, some n)] := by
  simp [mkR]

theorem find?_prefix_false {α : Type} (p : α → Bool) :
    (pre post : List α) → (x : α) → (∀ w ∈ pre, p w = false) → p x = true →
      (pre ++ x :: post).find? p = some x
  | [], post, x, _, hx => by simp [List.find?_cons, hx]
  | w :: pre, post, x, hpre, hx => by
    simp only [List.cons_append, List.find?_cons, hpre w (List.mem_cons_self w pre)]
    exact find?_prefix_false p pre post x (fun u hu => hpre u (List.mem_cons_of_mem w hu)) hx

theorem filterMap_congr_some {α β : Type} (f : α → Option β) (g : α → β) :
    (L : List α) → (∀ w ∈ L, f w = some (g w)) → L.filterMap f = L.map g
  | [], _ => rfl
  | w :: t, h => by
    rw [List.filterMap_cons, h w (List.mem_cons_self w t), List.map_cons,
      filterMap_congr_some f g t fun u hu => h u (List.mem_cons_of_mem w hu)]

theorem same_datasource_refl (a : Desc) : same_datasource a a = true := by
  simp [same_datasource, dictionaries_eq_ignore_case]

theorem test_self {rw0 rn0 : RMap} {n : Desc}
    (hs : same_id n n = true ∨ same_name n n = true)
    (hrw : is_resolved_was rw0 n = false) (hrn : is_resolved_now rn0 n = false) :
    test_if_matching_layer rw0 rn0 n n = true := by
  rcases hs with h | h
  · simp [test_if_matching_layer, test3, h, same_datasource_refl, hrw, hrn]
  · simp [test_if_matching_layer, test5, h, same_datasource_refl, hrw, hrn]

theorem tests_blocked {rw0 rn0 : RMap} {w n : Desc}
    (h1 : (same_id w n && same_name w n && same_datasource w n) = false)
    (hres : is_resolved_was rw0 w = true) :
    test_if_matching_layer rw0 rn0 w n = false := by
  simp [test_if_matching_layer, test1, test2, test3, test4, test5, test6, h1, hres]

theorem diff_field_entry_refl (a : Desc) (fd : String × Bool) : diff_field_entry a a fd = none := by
  unfold diff_field_entry
  cases h : dget a fd.1 with
  | none => rfl
  | some v =>
    have hs : attr_shallow_eq a a fd.1 = true := by simp [attr_shallow_eq, h]
    have hd : attr_deep_eq a a fd.1 = true := by simp [attr_deep_eq, h]
    cases fd.2 <;> simp [h, hs, hd]

theorem diff_fields_refl (tbl : List (String × Bool)) (a : Desc) : diff_fields tbl a a = [] := by
  induction tbl with
  | nil => rfl
  | cons fd t ih =>
    rw [diff_fields, List.filterMap_cons, diff_field_entry_refl]
    exact ih

theorem identity_match_loop (L : List Desc)
    (hnd : (L.map lidx).Nodup)
    (hpair : ∀ a ∈ L, ∀ b ∈ L, a ≠ b →
      (same_id a b && same_name a b && same_datasource a b) = false)
    (hself : ∀ l ∈ L, same_id l l = true ∨ same_name l l = true) :
    ∀ rest pre, L = pre ++ rest →
      match_loop L rest ⟨[], mkR pre, mkR pre⟩ = ⟨[], mkR L, mkR L⟩
  | [], pre, hL => by rw [hL, List.append_nil]; rfl
  | n :: rest, pre, hL => by
    have hnL : n ∈ L := hL ▸ List.mem_append_right pre (List.mem_cons_self n rest)
    have hdisj : ∀ w ∈ pre, lidx w ≠ lidx n := by
      intro w hw he
      rw [hL, List.map_append, List.map_cons] at hnd
      have h1 : lidx w ∈ pre.map lidx := List.mem_map_of_mem lidx hw
      have h2 := (List.disjoint_of_nodup_append hnd) h1
      rw [he] at h2
      exact h2 (List.mem_cons_self (lidx n) (rest.map lidx))
    have hblocked : ∀ w ∈ pre, test_if_matching_layer (mkR pre) (mkR pre) w n = false := by
      intro w hw
      have hwL : w ∈ L := hL ▸ List.mem_append_left _ hw
      have hwn : w ≠ n := fun he => (hdisj w hw) (he ▸ rfl)
      exact tests_blocked (hpair w hwL n hnL hwn) (mlook_mkR_isSome hw)
    have hnres : mlook (mkR pre) (lidx n) = none := mlook_mkR_none hdisj
    have hok : test_if_matching_layer (mkR pre) (mkR pre) n n = true :=
      test_self (hself n hnL) (by simp [is_resolved_was, hnres]) (by simp [is_resolved_now, hnres])
    have hfind :
        L.find? (fun w => test_if_matching_layer (mkR pre) (mkR pre) w n) = some n := by
      rw [hL]
      exact find?_prefix_false _ pre rest n hblocked hok
    have hset : mset (mkR pre) (lidx n) (some n) = mkR (pre ++ [n]) := by
      rw [mset_append_of_none _ _ _ hnres, mkR_append_one]
    rw [match_loop, hfind]
    show match_loop L rest
        ⟨[], mset (mkR pre) (lidx n) (some n), mset (mkR pre) (lidx n) (some n)⟩ =
      ⟨[], mkR L, mkR L⟩
    rw [hset]
    exact identity_match_loop L hnd hpair hself rest (pre ++ [n])
      (by rw [hL, List.append_assoc]; rfl)

theorem removed_loop_all_resolved :
    (ws : List Desc) → (m : RMap) → (∀ w ∈ ws, (mlook m (lidx w)).isSome = true) →
      removed_loop ws m = ([], m)
  | [], _, _ => rfl
  | w :: ws, m, h => by
    rw [removed_loop, if_pos (h w (List.mem_cons_self w ws))]
    exact removed_loop_all_resolved ws m fun u hu => h u (List.mem_cons_of_mem w hu)

/-- Counterexample to C4 as stated: the list `[exA, exB]` has distinct indexes
but its two layers agree on serviceId, name and dataSource; reconciling it
against an identical copy of itself removes `exB` (the unguarded most
specific test lets `exB` re-claim `exA`'s old twin), so `removed` is not
empty and `exB` is not matched to its counterpart. -/
theorem c4_counterexample :
    (exA ≠ exB ∧ lidx exA ≠ lidx exB) ∧
      match_layers [exA, exB] [exA, exB] = ⟨[], [(exA, exB)], [exB]⟩ := by decide

/-- Claim C4 (corrected): reconciling a layer list against an identical copy of
itself yields no additions, no removals, and every layer matched to its own
identical counterpart with zero field diffs, provided the indexes are distinct,
no two distinct layers are fully identical in serviceId, name and data source
(otherwise the unguarded most specific test re-claims a twin, see the
counterexample), and each layer carries a serviceId or a name so that it can
match itself at all. -/
theorem c4_identity_amended (L : List Desc)
    (hnd : (L.map lidx).Nodup)
    (hpair : ∀ a ∈ L, ∀ b ∈ L, a ≠ b →
      (same_id a b && same_name a b && same_datasource a b) = false)
    (hself : ∀ l ∈ L, same_id l l = true ∨ same_name l l = true) :
    match_layers L L = ⟨[], L.map fun l => (l, l), []⟩ ∧
      ∀ tbl : List (String × Bool), ∀ p ∈ (match_layers L L).matched,
        diff_fields tbl p.1 p.2 = [] := by
  have hloop := identity_match_loop L hnd hpair hself L [] rfl
  have hrem : removed_loop L (mkR L) = ([], mkR L) :=
    removed_loop_all_resolved L (mkR L) fun w hw => mlook_mkR_isSome hw
  have hmain : match_layers L L = ⟨[], L.map fun l => (l, l), []⟩ := by
    rw [match_layers]
    rw [show mkR ([] : List Desc) = [] from rfl] at hloop
    rw [hloop]
    simp only [hrem]
    refine congrArg (fun m => MLResult.mk [] m []) ?_
    rw [matched_of]
    exact filterMap_congr_some _ _ L fun w hw => by rw [mlook_mkR_mem hnd hw]
  refine ⟨hmain, fun tbl p hp => ?_⟩
  rw [hmain] at hp
  obtain ⟨l, _, rfl⟩ := List.mem_map.mp hp
  exact diff_fields_refl tbl l

/-- Witness for the amended C4: two distinguishable layers reconcile against
their own copy into two self-pairs with no additions, removals, or diffs. -/
theorem c4_identity_amended_witness :
    match_layers [exY, exXid] [exY, exXid] = ⟨[], [(exY, exY), (exXid, exXid)], []⟩ ∧
      ∀ p ∈ (match_layers [exY, exXid] [exY, exXid]).matched,
        diff_fields [("name", false), ("dataSource", true)] p.1 p.2 = [] :=
  have h := c4_identity_amended [exY, exXid] (by decide) (by decide) (by decide)
  ⟨h.1, fun p hp => h.2 [("name", false), ("dataSource", true)] p hp⟩

/-! ## Partition machinery for C1 -/

/-- The layers currently claimed in a resolved map (its non-`None` values). -/
def mvals (m : RMap) : List Desc := m.filterMap Prod.snd

/-- Remove the first entry stored under `k`. -/
def merase : RMap → Val → RMap
  | [], _ => []
  | (k', v) :: t, k => if k' = k then t else (k', v) :: merase t k

theorem mem_mset (m : RMap) (k : Val) (v : Option Desc) :
    ∀ p ∈ mset m k v, p ∈ m ∨ p = (k, v) := by
  induction m with
  | nil => intro p hp; simp [mset] at hp; right; exact hp
  | cons q t ih =>
    obtain ⟨k', w⟩ := q
    intro p hp
    by_cases h : k' = k
    · rw [mset, if_pos h] at hp
      rcases List.mem_cons.mp hp with rfl | hp'
      · right; rfl
      · left; exact List.mem_cons_of_mem _ hp'
    · rw [mset, if_neg h] at hp
      rcases List.mem_cons.mp hp with rfl | hp'
      · left; exact List.mem_cons_self _ _
      · rcases ih p hp' with h' | h'
        · left; exact List.mem_cons_of_mem _ h'
        · right; exact h'

theorem mvals_cons (k' : Val) (v : Option Desc) (t : RMap) :
    mvals ((k', v) :: t) = match v with | some d => d :: mvals t | none => mvals t := by
  cases v <;> simp [mvals, List.filterMap_cons]

theorem mvals_mset_subset (m : RMap) (k : Val) (n : Desc) :
    ∀ x ∈ mvals (mset m k (some n)), x = n ∨ x ∈ mvals m := by
  induction m with
  | nil =>
    intro x hx
    rw [show mset ([] : RMap) k (some n) = [(k, some n)] from rfl, mvals_cons] at hx
    left
    simpa [mvals] using hx
  | cons q t ih =>
    obtain ⟨k', v⟩ := q
    intro x hx
    by_cases h : k' = k
    · rw [mset, if_pos h, mvals_cons] at hx
      rcases List.mem_cons.mp hx with rfl | hx'
      · left; rfl
      · right
        rw [mvals_cons]
        cases v with
        | none => exact hx'
        | some d => exact List.mem_cons_of_mem d hx'
    · rw [mset, if_neg h, mvals_cons] at hx
      rw [mvals_cons]
      cases v with
      | none => exact ih x hx
      | some d =>
        rcases List.mem_cons.mp hx with rfl | hx'
        · right; exact List.mem_cons_self _ _
        · rcases ih x hx' with h' | h'
          · left; exact h'
          · right; exact List.mem_cons_of_mem d h'

theorem count_mvals_mset (m : RMap) (k : Val) (n : Desc) (j : Val) :
    ((mvals (mset m k (some n))).map lidx).count j ≤ ((n :: mvals m).map lidx).count j := by
  induction m with
  | nil =>
    rw [show mset ([] : RMap) k (some n) = [(k, some n)] from rfl]
    simp [mvals]
  | cons q t ih =>
    obtain ⟨k', v⟩ := q
    by_cases h : k' = k
    · rw [mset, if_pos h, mvals_cons, mvals_cons]
      cases v <;> simp [List.count_cons]
    · rw [mset, if_neg h, mvals_cons, mvals_cons]
      cases v with
      | none => simpa [mvals_cons] using ih
      | some d =>
        have := ih
        simp only [List.map_cons, List.count_cons, mvals_cons] at *
        omega

theorem mvals_mset_none (m : RMap) (k : Val) (h : mlook m k = none) :
    mvals (mset m k none) = mvals m := by
  rw [mset_append_of_none _ _ _ h]
  simp [mvals, List.filterMap_append]

theorem mlook_some_mem (m : RMap) (k : Val) (d : Desc) (h : mlook m k = some (some d)) :
    d ∈ mvals m := by
  induction m with
  | nil => cases h
  | cons q t ih =>
    obtain ⟨k', v⟩ := q
    rw [mvals_cons]
    by_cases hk : k' = k
    · rw [mlook, if_pos hk] at h
      cases h
      exact List.mem_cons_self _ _
    · rw [mlook, if_neg hk] at h
      cases v with
      | none => exact ih h
      | some e => exact List.mem_cons_of_mem e (ih h)

theorem mlook_merase_ne (m : RMap) {k j : Val} (h : j ≠ k) :
    mlook (merase m k) j = mlook m j := by
  induction m with
  | nil => rfl
  | cons q t ih =>
    obtain ⟨k', v⟩ := q
    by_cases hk : k' = k
    · rw [merase, if_pos hk, mlook, if_neg (by rw [hk]; exact fun he => h he.symm)]
    · rw [merase, if_neg hk, mlook, mlook]
      by_cases hj : k' = j
      · rw [if_pos hj, if_pos hj]
      · rw [if_neg hj, if_neg hj, ih]

theorem mvals_merase_perm (m : RMap) (k : Val) (v : Option Desc) (h : mlook m k = some v) :
    (mvals m).Perm (v.toList ++ mvals (merase m k)) := by
  induction m with
  | nil => cases h
  | cons q t ih =>
    obtain ⟨k', w⟩ := q
    by_cases hk : k' = k
    · rw [mlook, if_pos hk] at h
      cases h
      rw [merase, if_pos hk, mvals_cons]
      cases v <;> simp
    · rw [mlook, if_neg hk] at h
      rw [merase, if_neg hk, mvals_cons, mvals_cons]
      cases w with
      | none => exact ih h
      | some d =>
        refine ((ih h).cons d).trans ?_
        exact List.perm_middle.symm

theorem filterMap_ext_mem {α β : Type} {f g : α → Option β} :
    ∀ (l : List α), (∀ x ∈ l, f x = g x) → l.filterMap f = l.filterMap g
  | [], _ => rfl
  | x :: t, h => by
    rw [List.filterMap_cons, List.filterMap_cons, h x (List.mem_cons_self x t),
      filterMap_ext_mem t fun y hy => h y (List.mem_cons_of_mem x hy)]

theorem removed_loop_lookup (ws : List Desc) (m : RMap) (j : Val) (d : Desc) :
    mlook (removed_loop ws m).2 j = some (some d) ↔ mlook m j = some (some d) := by
  induction ws generalizing m with
  | nil => exact Iff.rfl
  | cons w ws ih =>
    rw [removed_loop]
    by_cases h : (mlook m (lidx w)).isSome = true
    · rw [if_pos h]
      exact ih m
    · rw [if_neg h]
      refine (ih _).trans ?_
      by_cases hj : lidx w = j
      · subst hj
        rw [mlook_mset_self]
        rw [Option.not_isSome_iff_eq_none] at h
        rw [h]
        simp
      · rw [mlook_mset_ne _ _ hj]

theorem removed_loop_fst (ws : List Desc) (m : RMap) (h : (ws.map lidx).Nodup) :
    (removed_loop ws m).1 = ws.filter fun w => !(mlook m (lidx w)).isSome := by
  induction ws generalizing m with
  | nil => rfl
  | cons w ws ih =>
    rw [List.map_cons, List.nodup_cons] at h
    rw [removed_loop, List.filter_cons]
    by_cases hw : (mlook m (lidx w)).isSome = true
    · rw [if_pos hw]
      simp only [hw, Bool.not_true, if_neg]
      exact ih m h.2
    · rw [if_neg hw]
      simp only [Bool.not_eq_true] at hw
      simp only [hw, Bool.not_false, if_pos]
      rw [ih _ h.2, List.filter_congr]
      intro v hv
      have hne : lidx w ≠ lidx v := fun he => h.1 (he ▸ List.mem_map_of_mem lidx hv)
      rw [mlook_mset_ne _ _ hne]

theorem matched_of_eq_of_iff (was : List Desc) (m1 m2 : RMap)
    (h : ∀ j d, mlook m1 j = some (some d) ↔ mlook m2 j = some (some d)) :
    matched_of was m1 = matched_of was m2 := by
  unfold matched_of
  apply filterMap_ext_mem
  intro w _
  cases h1 : mlook m1 (lidx w) with
  | some v =>
    cases v with
    | some d =>
      rw [(h (lidx w) d).mp h1]
    | none =>
      cases h2 : mlook m2 (lidx w) with
      | none => rfl
      | some v2 =>
        cases v2 with
        | none => rfl
        | some d => exact absurd ((h (lidx w) d).mpr h2) (by rw [h1]; simp)
  | none =>
    cases h2 : mlook m2 (lidx w) with
    | none => rfl
    | some v2 =>
      cases v2 with
      | none => rfl
      | some d => exact absurd ((h (lidx w) d).mpr h2) (by rw [h1]; simp)

theorem matched_of_fst (was : List Desc) (m : RMap) :
    (matched_of was m).map Prod.fst = was.filter fun w =>
      match mlook m (lidx w) with | some (some _) => true | _ => false := by
  induction was with
  | nil => rfl
  | cons w ws ih =>
    rw [matched_of, List.filterMap_cons, List.filter_cons]
    cases h : mlook m (lidx w) with
    | some v =>
      cases v with
      | some d => simpa [matched_of, h] using ih
      | none => simpa [matched_of, h] using ih
    | none => simpa [matched_of, h] using ih

theorem mem_matched_snd (was : List Desc) (m : RMap) :
    ∀ x ∈ (matched_of was m).map Prod.snd, x ∈ mvals m := by
  intro x hx
  obtain ⟨⟨w, n⟩, hp, rfl⟩ := List.mem_map.mp hx
  obtain ⟨v, _, hv⟩ := List.mem_filterMap.mp hp
  revert hv
  cases h : mlook m (lidx v) with
  | some o =>
    cases o with
    | some d =>
      intro hv
      cases hv
      exact mlook_some_mem _ _ _ h
    | none => intro hv; cases hv
  | none => intro hv; cases hv

theorem matched_of_cons (w : Desc) (ws : List Desc) (m : RMap) :
    matched_of (w :: ws) m = (match mlook m (lidx w) with
      | some (some n) => (w, n) :: matched_of ws m
      | _ => matched_of ws m) := by
  unfold matched_of
  rw [List.filterMap_cons]
  cases mlook m (lidx w) with
  | none => rfl
  | some v => cases v <;> rfl

theorem matched_of_congr (ws : List Desc) (m1 m2 : RMap)
    (h : ∀ w ∈ ws, mlook m1 (lidx w) = mlook m2 (lidx w)) :
    matched_of ws m1 = matched_of ws m2 := by
  unfold matched_of
  exact filterMap_ext_mem ws fun w hw => by rw [h w hw]

theorem matched_count (was : List Desc) (m : RMap) (h : (was.map lidx).Nodup) (j : Val) :
    (((matched_of was m).map Prod.snd).map lidx).count j ≤ ((mvals m).map lidx).count j := by
  induction was generalizing m with
  | nil => simp [matched_of]
  | cons w ws ih =>
    rw [List.map_cons, List.nodup_cons] at h
    rw [matched_of_cons]
    cases hl : mlook m (lidx w) with
    | none => exact ih m h.2
    | some v =>
      cases v with
      | none => exact ih m h.2
      | some n =>
        have hcnt : ((mvals m).map lidx).count j =
            ((n :: mvals (merase m (lidx w))).map lidx).count j :=
          (((mvals_merase_perm m (lidx w) (some n) hl).map lidx).count_eq j)
        have hcg : matched_of ws m = matched_of ws (merase m (lidx w)) := by
          apply matched_of_congr
          intro v hv
          have hne : lidx v ≠ lidx w := fun he => h.1 (he ▸ List.mem_map_of_mem lidx hv)
          exact (mlook_merase_ne m hne).symm
        rw [hcg, hcnt]
        simp only [List.map_cons, List.count_cons]
        exact Nat.add_le_add_right (ih _ h.2) _

theorem match_loop_rw_good (was : List Desc) (rest : List Desc) (acc : MLAcc)
    (h : ∀ j w', mlook acc.rw j = some w' → w'.isSome) :
    ∀ j w', mlook (match_loop was rest acc).rw j = some w' → w'.isSome := by
  induction rest generalizing acc with
  | nil => exact h
  | cons n rest ih =>
    rw [match_loop]
    cases hf : was.find? (fun w => test_if_matching_layer acc.rw acc.rn w n) with
    | some w =>
      refine ih _ ?_
      intro j w' hj
      by_cases hk : j = lidx w
      · subst hk
        rw [show (MLAcc.rw ⟨acc.added, mset acc.rw (lidx w) (some n),
            mset acc.rn (lidx n) (some w)⟩) = mset acc.rw (lidx w) (some n) from rfl,
          mlook_mset_self] at hj
        cases hj
        rfl
      · rw [show (MLAcc.rw ⟨acc.added, mset acc.rw (lidx w) (some n),
            mset acc.rn (lidx n) (some w)⟩) = mset acc.rw (lidx w) (some n) from rfl,
          mlook_mset_ne _ _ fun he => hk he.symm] at hj
        exact h j w' hj
    | none =>
      refine ih _ ?_
      intro j w' hj
      exact h j w' hj

theorem match_loop_count (was : List Desc) (rest : List Desc) (acc : MLAcc) (j : Val) :
    (((match_loop was rest acc).added ++ mvals (match_loop was rest acc).rw).map lidx).count j ≤
      ((acc.added ++ mvals acc.rw).map lidx).count j + (rest.map lidx).count j := by
  induction rest generalizing acc with
  | nil => simp [match_loop]
  | cons n rest ih =>
    rw [match_loop]
    cases hf : was.find? (fun w => test_if_matching_layer acc.rw acc.rn w n) with
    | some w =>
      refine (ih _).trans ?_
      have hc := count_mvals_mset acc.rw (lidx w) n j
      simp only [List.map_append, List.count_append, List.map_cons, List.count_cons] at hc ⊢
      split_ifs at hc ⊢ <;> omega
    | none =>
      refine (ih _).trans ?_
      simp only [List.map_append, List.count_append, List.map_cons, List.count_cons,
        List.map_nil, List.count_nil]
      split_ifs <;> omega

theorem match_loop_mem (was : List Desc) (rest : List Desc) (acc : MLAcc) (x : Desc) :
    (x ∈ (match_loop was rest acc).added → x ∈ acc.added ∨ x ∈ rest) ∧
      (x ∈ mvals (match_loop was rest acc).rw → x ∈ mvals acc.rw ∨ x ∈ rest) := by
  induction rest generalizing acc with
  | nil => exact ⟨fun h => .inl h, fun h => .inl h⟩
  | cons n rest ih =>
    rw [match_loop]
    cases hf : was.find? (fun w => test_if_matching_layer acc.rw acc.rn w n) with
    | some w =>
      refine ⟨fun h => ?_, fun h => ?_⟩
      · rcases (ih _ ).1 h with h' | h'
        · exact .inl h'
        · exact .inr (List.mem_cons_of_mem n h')
      · rcases (ih _ ).2 h with h' | h'
        · rcases mvals_mset_subset acc.rw (lidx w) n x h' with rfl | h''
          · exact .inr (List.mem_cons_self x rest)
          · exact .inl h''
        · exact .inr (List.mem_cons_of_mem n h')
    | none =>
      refine ⟨fun h => ?_, fun h => ?_⟩
      · rcases (ih _ ).1 h with h' | h'
        · rcases List.mem_append.mp h' with h'' | h''
          · exact .inl h''
          · have hx : x = n := List.mem_singleton.mp h''
            exact .inr (hx ▸ List.mem_cons_self n rest)
        · exact .inr (List.mem_cons_of_mem n h')
      · rcases (ih _ ).2 h with h' | h'
        · exact .inl h'
        · exact .inr (List.mem_cons_of_mem n h')

/-- C1: the spec's partition invariant fails on the new side.  Both old and new
index sets are duplicate-free, yet the new layer `exN1` — identical to the old
layer `exX` — ends up in neither `added` nor the second components of
`matched`: `exN2` also passes the unguarded test 1 against `exX` and, being
processed later, overwrites `exN1` in `resolved_was`, so `exN1` is silently
dropped. -/
theorem c1_counterexample :
    ([exX].map lidx).Nodup ∧ ([exN1, exN2].map lidx).Nodup ∧
      exN1 ∈ [exN1, exN2] ∧
      match_layers [exX] [exN1, exN2] = ⟨[], [(exX, exN2)], []⟩ ∧
      exN1 ∉ (match_layers [exX] [exN1, exN2]).added ∧
      exN1 ∉ (match_layers [exX] [exN1, exN2]).matched.map Prod.snd := by
  decide

/-- C1 (amended): when every layer index is unique within its own list,
`_match_layers` partitions the old side exactly — `removed` together with the
first components of `matched` is a permutation of the old list — while the new
side is only at-most-once: no index is repeated across `added` and the second
components of `matched`, and every layer there comes from the new list, but a
new layer can be omitted entirely (`c1_counterexample`) because test 1 lacks
the `is_resolved` guards of tests 2-6. -/
theorem c1_partition_amended (was now : List Desc)
    (hw : (was.map lidx).Nodup) (hn : (now.map lidx).Nodup) :
    ((match_layers was now).removed ++ (match_layers was now).matched.map Prod.fst).Perm was ∧
      (((match_layers was now).added ++
        (match_layers was now).matched.map Prod.snd).map lidx).Nodup ∧
      ∀ x ∈ (match_layers was now).added ++ (match_layers was now).matched.map Prod.snd,
        x ∈ now := by
  have hadd : (match_layers was now).added = (match_loop was now ⟨[], [], []⟩).added := rfl
  have hmat : (match_layers was now).matched =
      matched_of was (removed_loop was (match_loop was now ⟨[], [], []⟩).rw).2 := rfl
  have hrem : (match_layers was now).removed =
      (removed_loop was (match_loop was now ⟨[], [], []⟩).rw).1 := rfl
  have hgood : ∀ j w', mlook (match_loop was now ⟨[], [], []⟩).rw j = some w' → w'.isSome := by
    apply match_loop_rw_good
    intro j w' hj
    cases hj
  have hmeq : matched_of was (removed_loop was (match_loop was now ⟨[], [], []⟩).rw).2 =
      matched_of was (match_loop was now ⟨[], [], []⟩).rw :=
    matched_of_eq_of_iff _ _ _ fun j d => removed_loop_lookup was _ j d
  have hremf : (removed_loop was (match_loop was now ⟨[], [], []⟩).rw).1 =
      was.filter fun w => !(mlook (match_loop was now ⟨[], [], []⟩).rw (lidx w)).isSome :=
    removed_loop_fst was _ hw
  have hfst : (matched_of was (match_loop was now ⟨[], [], []⟩).rw).map Prod.fst =
      was.filter fun w => (mlook (match_loop was now ⟨[], [], []⟩).rw (lidx w)).isSome := by
    rw [matched_of_fst]
    apply List.filter_congr
    intro w _
    cases hl : mlook (match_loop was now ⟨[], [], []⟩).rw (lidx w) with
    | none => rfl
    | some v =>
      cases v with
      | some d => rfl
      | none => exact absurd (hgood _ _ hl) (by simp)
  refine ⟨?_, ?_, ?_⟩
  · rw [hrem, hmat, hmeq, hremf, hfst]
    exact List.perm_append_comm.trans
      (List.filter_append_perm (fun w =>
        (mlook (match_loop was now ⟨[], [], []⟩).rw (lidx w)).isSome) was)
  · rw [List.nodup_iff_count_le_one]
    intro j
    have h1 : (((matched_of was (match_loop was now ⟨[], [], []⟩).rw).map Prod.snd).map
        lidx).count j ≤ ((mvals (match_loop was now ⟨[], [], []⟩).rw).map lidx).count j :=
      matched_count was _ hw j
    have h2 : (((match_loop was now ⟨[], [], []⟩).added ++
        mvals (match_loop was now ⟨[], [], []⟩).rw).map lidx).count j ≤
        0 + (now.map lidx).count j :=
      match_loop_count was now ⟨[], [], []⟩ j
    have h4 : (now.map lidx).count j ≤ 1 := List.nodup_iff_count_le_one.mp hn j
    rw [hadd, hmat, hmeq]
    simp only [List.map_append, List.count_append] at h2 ⊢
    omega
  · intro x hx
    rw [hadd, hmat, hmeq] at hx
    rcases List.mem_append.mp hx with hx' | hx'
    · rcases (match_loop_mem was now ⟨[], [], []⟩ x).1 hx' with h' | h'
      · exact absurd h' (List.not_mem_nil x)
      · exact h'
    · have hm := mem_matched_snd was _ x hx'
      rcases (match_loop_mem was now ⟨[], [], []⟩ x).2 hm with h' | h'
      · exact absurd h' (List.not_mem_nil x)
      · exact h'

theorem c1_partition_amended_witness :
    ([exX].map lidx).Nodup ∧ ([exN1, exN2].map lidx).Nodup ∧
      (((match_layers [exX] [exN1, exN2]).removed ++
        (match_layers [exX] [exN1, exN2]).matched.map Prod.fst).Perm [exX] ∧
       (((match_layers [exX] [exN1, exN2]).added ++
        (match_layers [exX] [exN1, exN2]).matched.map Prod.snd).map lidx).Nodup ∧
       ∀ x ∈ (match_layers [exX] [exN1, exN2]).added ++
          (match_layers [exX] [exN1, exN2]).matched.map Prod.snd, x ∈ [exN1, exN2]) :=
  ⟨by decide, by decide, c1_partition_amended [exX] [exN1, exN2] (by decide) (by decide)⟩

end ArcpyExt